import Mathlib

/-!
# Verification development for the `uuid` package (time-based generation engine)

Shallow embedding of `generator.go` and `uuid.go`.

Conventions of the embedding:

* Go machine integers (`Timestamp` is a `uint64`, `Sequence` a `uint16`, `Domain`
  a `uint8`, a byte) are natural numbers; every place where the Go code converts
  or overflows carries an explicit `% 2^w` (`uint16(x)` is `x % 2^16`, `byte(x)` is
  `x % 256`, `x >> k` is `x / 2^k`).
* A `[]byte` is a `List Nat`; the nil slice is the empty list, except for the
  result of `Id`, where the code tests `node == nil`, which is an `Option`.
* The function fields `Next` and `Random` are not pure in Go.  In the embedding
  the field is the sequence of answers (the answer to the k-th call) and the
  Generator carries the number of calls made so far.
* The mutex only serialises callers; the embedding is sequential.
-/

namespace uuid

/-- Go `error`; the nil error is `none : Option Error`. -/
abbrev Error := String

/-- `type Node []byte`. -/
abbrev Node := List Nat

/-- `type Uuid []byte`. -/
abbrev Uuid := List Nat

/-- `DomainUser Domain = iota + 1`, a `uint8`. -/
def DomainUser : Nat := 1

/-- `DomainGroup`, the constant after `DomainUser`. -/
def DomainGroup : Nat := 2

/-- The `Store` struct: the state `(Timestamp, Sequence, Node)` of a Generator.
The default value is Go's zero value, what `new(Store)` points to. -/
structure Store where
  Timestamp : Nat := 0
  Sequence : Nat := 0
  Node : Node := []
deriving DecidableEq, Repr

/-- The `Saver` interface as seen by the Generator: `Read` is what the one call
`o.Read()` of `init` returns (a Store and an error), and `saved` is the log of
the arguments of the `Save` calls made so far, oldest first. -/
structure Saver where
  Read : Store × Option Error := ({}, none)
  saved : List Store := []
deriving DecidableEq, Repr

/-- The method `Save(Store)` of a Saver: the store is recorded. -/
def Saver.Save (s : Saver) (st : Store) : Saver :=
  { s with saved := s.saved ++ [st] }

/-- One answer of a `Random func([]byte) (int, error)`: the bytes it writes at the
front of the buffer it is given, and the error it returns. -/
structure RandomReply where
  bytes : List Nat := []
  err : Option Error := none
deriving DecidableEq, Repr

/-- Go's builtin `copy(dst, src)`: the first `min (len dst) (len src)` bytes of
`dst` are overwritten, the length of `dst` is unchanged. -/
def copy (dst src : List Nat) : List Nat :=
  src.take dst.length ++ dst.drop src.length

/-- `make([]byte, n)`: n zero bytes. -/
def make (n : Nat) : List Nat := List.replicate n 0

/-- `binary.BigEndian.Uint16(b)`, that is `uint16(b[1]) | uint16(b[0])<<8`. -/
def BigEndianUint16 (b : List Nat) : Nat :=
  (b.getD 1 0 % 2 ^ 16) ||| ((b.getD 0 0 % 2 ^ 16) <<< 8) % 2 ^ 16

/-- The `Generator` struct.  `done` is the embedded `sync.Once`; `Id` is what a
call `o.Id()` returns (`none` for a nil Node); `Next k` and `Random k` are the
answers to the k-th call of `o.Next()` and `o.Random(buf)`; `HandleError e` is
`none` when the handler panics; `nextCalls`, `randomCalls` and `handleCalls` count
the calls of `Next`, `Random` and `HandleError` made so far. -/
structure Generator where
  done : Bool := false
  err : Option Error := none
  Store : Store := {}
  Id : Option Node := none
  HandleError : Error → Option Bool := fun _ => none
  Next : Nat → Nat := fun _ => 0
  Random : Nat → RandomReply := fun _ => {}
  Saver : Option Saver := none
  nextCalls : Nat := 0
  randomCalls : Nat := 0
  handleCalls : Nat := 0

/-- The method `save`: `state.Save(*state.Store)` when a Saver is set. -/
def Generator.save (o : Generator) : Generator :=
  match o.Saver with
  | some sv => { o with Saver := some (sv.Save o.Store) }
  | none => o

/-- The method `read`: one reading of the clock, the sequence incremented (as a
`uint16`) when the reading is not later than the stored timestamp, the timestamp
replaced by the reading; the deferred `save` runs last, when a Saver is set on
entry. -/
def Generator.read (o : Generator) : Generator :=
  let now := o.Next o.nextCalls
  let seq := if now ≤ o.Store.Timestamp then (o.Store.Sequence + 1) % 2 ^ 16 else o.Store.Sequence
  let o1 : Generator :=
    { o with nextCalls := o.nextCalls + 1,
             Store := { o.Store with Sequence := seq, Timestamp := now } }
  if o.Saver.isSome then o1.save else o1

/-- Lines 246-287 of `init`: the choice of the sequence and the commit of the
state, given the loaded `storage`, the reading `now` and the resolved `node`. -/
def Generator.initCommit (o : Generator) (storage : uuid.Store) (now : Nat) (node : Node) :
    Generator :=
  if o.Saver.isNone || !(storage.Node == node) then
    let r := o.Random o.randomCalls
    let o1 : Generator := { o with randomCalls := o.randomCalls + 1 }
    let b := copy (make 2) r.bytes
    match r.err with
    | none =>
      { o1 with Store := { storage with Sequence := BigEndianUint16 b % 2 ^ 16,
                                        Timestamp := now, Node := node } }
    | some e => { o1 with err := some e }
  else if now < storage.Timestamp then
    { o with Store := { storage with Sequence := (storage.Sequence + 1) % 2 ^ 16,
                                     Timestamp := now, Node := node } }
  else
    { o with Store := { storage with Timestamp := now, Node := node } }

/-- The method `init`. -/
def Generator.init (o : Generator) : Generator :=
  -- var storage Store; if o.Saver != nil { storage, err = o.Read(); ... }
  let (storage, o1) : uuid.Store × Generator :=
    match o.Saver with
    | some sv =>
      match sv.Read.2 with
      | some _ => (sv.Read.1, { o with Saver := none })
      | none => (sv.Read.1, o)
    | none => ({}, o)
  -- now := o.Next()
  let now := o1.Next o1.nextCalls
  let o2 : Generator := { o1 with nextCalls := o1.nextCalls + 1 }
  -- node := o.Id()
  match o2.Id with
  | some node => o2.initCommit storage now node
  | none =>
    let r := o2.Random o2.randomCalls
    let o3 : Generator := { o2 with randomCalls := o2.randomCalls + 1 }
    let node := copy (make 6) r.bytes
    match r.err with
    | some e => { o3 with err := some e }
    | none => o3.initCommit storage now (node.set 0 (node.getD 0 0 ||| 0x01))

/-- The method `Do` of the embedded `sync.Once`: run `f` unless it already ran. -/
def Generator.Do (o : Generator) (f : Generator → Generator) : Generator :=
  if o.done then o else { f o with done := true }

/-- The array type `array` of the package, `[16]byte`; `array{}` is sixteen zero
bytes. -/
def arrayZero : List Nat := List.replicate 16 0

/-- The function `makeUuid`: the sixteen bytes of `id` after the ten byte
assignments and `copy(id[10:], node)`. -/
def makeUuid (id : List Nat) (low mid hiAndV seq : Nat) (node : Node) : List Nat :=
  let id := id.set 0 (low / 2 ^ 24 % 256)
  let id := id.set 1 (low / 2 ^ 16 % 256)
  let id := id.set 2 (low / 2 ^ 8 % 256)
  let id := id.set 3 (low % 256)
  let id := id.set 4 (mid / 2 ^ 8 % 256)
  let id := id.set 5 (mid % 256)
  let id := id.set 6 (hiAndV / 2 ^ 8 % 256)
  let id := id.set 7 (hiAndV % 256)
  let id := id.set 8 (seq / 2 ^ 8 % 256)
  let id := id.set 9 (seq % 256)
  id.take 10 ++ copy (id.drop 10) node

/-- Modelled from the spec: the method `setRFC4122Version` of `array` is called by
`NewV1` and `NewV2` but is not part of the sources at hand.  Section 4.5 step 7
and the table of section 6: the version goes into the high 4 bits of byte 6 (the
low 4 bits are kept) and the variant bits `10` into the top 2 bits of byte 8 (the
low 6 bits are kept). -/
def setRFC4122Version (id : List Nat) (version : Nat) : List Nat :=
  let id := id.set 6 (version % 16 * 16 + id.getD 6 0 % 16)
  id.set 8 (2 * 64 + id.getD 8 0 % 64)

/-- What the operating system answers to `os.Getuid()` and `os.Getgid()`. -/
structure Host where
  Getuid : Int := 0
  Getgid : Int := 0
deriving DecidableEq, Repr

/-- The method `NewV1`: the identifier returned and the Generator afterwards. -/
def Generator.NewV1 (o : Generator) : Uuid × Generator :=
  let o := o.read
  let id := makeUuid arrayZero
    (o.Store.Timestamp % 2 ^ 32)
    (o.Store.Timestamp / 2 ^ 32 % 2 ^ 16)
    (o.Store.Timestamp / 2 ^ 48 % 2 ^ 16)
    (o.Store.Sequence % 2 ^ 16)
    o.Store.Node
  (setRFC4122Version id 1, o)

/-- The method `NewV2`: the identifier returned and the Generator afterwards. -/
def Generator.NewV2 (o : Generator) (host : Host) (domain : Nat) : Uuid × Generator :=
  let o := o.read
  let domainId : Nat :=
    if domain = DomainUser then (host.Getuid % 2 ^ 32).toNat
    else if domain = DomainGroup then (host.Getgid % 2 ^ 32).toNat
    else 0
  let id := makeUuid arrayZero
    domainId
    (o.Store.Timestamp / 2 ^ 32 % 2 ^ 16)
    (o.Store.Timestamp / 2 ^ 48 % 2 ^ 16)
    (o.Store.Sequence % 2 ^ 16)
    o.Store.Node
  let id := id.set 9 (domain % 256)
  (setRFC4122Version id 2, o)

/-- The struct `GeneratorConfig`; a nil function field is `none`. -/
structure GeneratorConfig where
  Saver : Option Saver := none
  Next : Option (Nat → Nat) := none
  Resolution : Nat := 0
  Id : Option (Option Node) := none
  Random : Option (Nat → RandomReply) := none
  HandleError : Option (Error → Option Bool) := none

/-- The defaults `newGenerator` falls back on, which the sources at hand only
name: the answers of a spinner of a given resolution, `defaultSpinResolution`,
the result of `findFirstHardwareAddress` and the answers of `rand.Read`. -/
structure Defaults where
  spinnerNext : Nat → Nat → Nat := fun _ _ => 0
  defaultSpinResolution : Nat := 1024
  findFirstHardwareAddress : Option Node := none
  randRead : Nat → RandomReply := fun _ => {}

/-- The function `runHandleError`: it panics. -/
def runHandleError : Error → Option Bool := fun _ => none

/-- The function `newGenerator`: a Generator with the given functions, the
defaults for those left nil, a zero Store, no error and an unused `sync.Once`. -/
def newGenerator (d : Defaults) (config : GeneratorConfig) : Generator :=
  { done := false
    err := none
    Next :=
      match config.Next with
      | none =>
        d.spinnerNext (if config.Resolution = 0 then d.defaultSpinResolution else config.Resolution)
      | some f => f
    Id :=
      match config.Id with
      | none => d.findFirstHardwareAddress
      | some f => f
    Random :=
      match config.Random with
      | none => d.randRead
      | some f => f
    HandleError :=
      match config.HandleError with
      | none => runHandleError
      | some f => f
    Saver := config.Saver
    Store := {}
    nextCalls := 0
    randomCalls := 0 }

/-- The package-level variables `once` and `generator`. -/
structure Package where
  once : Bool := false
  generator : Generator

/-- The package as it is when the program starts:
`generator = newGenerator(GeneratorConfig{})` and an unused `once`. -/
def Package.start (d : Defaults) : Package :=
  { once := false, generator := newGenerator d {} }

/-- The package-level function `NewV1`: `generator.NewV1()`. -/
def NewV1 (p : Package) : Uuid × Package :=
  let r := p.generator.NewV1
  (r.1, { p with generator := r.2 })

/-- The package-level function `NewV2`: `generator.NewV2(pDomain)`. -/
def NewV2 (p : Package) (host : Host) (pDomain : Nat) : Uuid × Package :=
  let r := p.generator.NewV2 host pDomain
  (r.1, { p with generator := r.2 })

/-- The function `NewGenerator`: the new Generator is returned and `init` runs,
through its `sync.Once`, on the package-level `generator`. -/
def NewGenerator (d : Defaults) (p : Package) (config : GeneratorConfig) : Generator × Package :=
  let gen := newGenerator d config
  (gen, { p with generator := p.generator.Do Generator.init })

/-- How a call of a Go function ends: it returns a value or it panics. -/
inductive Outcome (α : Type) where
  | returned (a : α)
  | panicked
deriving DecidableEq, Repr

/-- The method `Error`: the recorded error is returned and cleared. -/
def Generator.Error (o : Generator) : Option Error × Generator :=
  (o.err, { o with err := none })

/-- The function `v4` on the package-level generator: the error is cleared,
`Random` fills a zero array, version 4 is stamped; the sixteen bytes and the error
of `Random` are returned. -/
def v4 (p : Package) : (Uuid × Option Error) × Package :=
  let g : Generator := { p.generator with err := none }
  let r := g.Random g.randomCalls
  let a := copy arrayZero r.bytes
  let g : Generator := { g with randomCalls := g.randomCalls + 1 }
  ((setRFC4122Version a 4, r.err), { p with generator := g })

/-- The function `NewV4`: how the call ends (a Uuid, `none` for the nil Uuid, or a
panic of `HandleError`) and the package afterwards. -/
def NewV4 (p : Package) : Outcome (Option Uuid) × Package :=
  let r := v4 p
  match r.1.2 with
  | none => (.returned (some r.1.1), r.2)
  | some err =>
    -- generator.err = err
    let p1 : Package := { r.2 with generator := { r.2.generator with err := some err } }
    -- ok := generator.HandleError(err)
    let p2 : Package :=
      { p1 with generator := { p1.generator with handleCalls := p1.generator.handleCalls + 1 } }
    match p1.generator.HandleError err with
    | none => (.panicked, p2)
    | some false => (.returned none, p2)
    | some true =>
      let r2 := v4 p2
      match r2.1.2 with
      | none => (.returned (some r2.1.1), r2.2)
      | some err2 =>
        (.returned none, { r2.2 with generator := { r2.2.generator with err := some err2 } })

/-- The function `RegisterGenerator`: how the call ends (the error returned, or the
panic of `log.Panicf` when the package-level `once` has already fired) and the
package afterwards. -/
def RegisterGenerator (d : Defaults) (p : Package) (config : GeneratorConfig) :
    Outcome (Option Error) × Package :=
  let gen := newGenerator d config
  if p.once then
    -- once.Do runs nothing, notOnce is still true
    (.panicked, p)
  else
    -- generator = gen; generator.Do(generator.init); err = generator.Error()
    let g := (gen.Do Generator.init).Error
    (.returned g.1, { once := true, generator := g.2 })

/-- The function `Init`: `RegisterGenerator(GeneratorConfig{})`. -/
def Init (d : Defaults) (p : Package) : Outcome (Option Error) × Package :=
  RegisterGenerator d p {}

/-! ## Parsing the textual form

A Go string is taken as the list of its characters.  `regexp.MustCompile` and
`FindStringSubmatch` belong to the Go library: the pattern is written as a term of
`Regexp`, and matching is the backtracking search whose first outcome the library
returns (leftmost-first).  The pattern opens with `^`, so only matches that start
at the beginning of the text are tried. -/

/-- The character class `[[:xdigit:]]`: `0-9`, `a-f`, `A-F`. -/
def isXDigit (c : Char) : Bool :=
  (48 ≤ c.toNat && c.toNat ≤ 57) || (97 ≤ c.toNat && c.toNat ≤ 102) ||
    (65 ≤ c.toNat && c.toNat ≤ 70)

/-- The regular expressions the pattern is built from: a literal string, one
character of a class, `r?`, `r{n}`, concatenation, the capture group number i, and
`$`, the end of the text. -/
inductive Regexp where
  | lit (s : List Char)
  | cls (p : Char → Bool)
  | opt (r : Regexp)
  | rep (n : Nat) (r : Regexp)
  | cat (r s : Regexp)
  | grp (i : Nat) (r : Regexp)
  | eot

/-- The groups captured by a match: number and text. -/
abbrev Captures := List (Nat × List Char)

/-- The outcomes of n successive matches of `f`: what is left of the input and the
groups captured, in the order a backtracking search finds them. -/
def repeatRun (f : List Char → List (List Char × Captures)) :
    Nat → List Char → List (List Char × Captures)
  | 0, inp => [(inp, [])]
  | n + 1, inp => (f inp).flatMap fun a => (repeatRun f n a.1).map fun b => (b.1, a.2 ++ b.2)

/-- The outcomes of matching a regular expression at the start of the input: what
is left of the input and the groups captured, in the order a backtracking search
finds them (`r?` tries `r` first). -/
def Regexp.run : Regexp → List Char → List (List Char × Captures)
  | .lit s, inp => if s.isPrefixOf inp then [(inp.drop s.length, [])] else []
  | .cls p, inp =>
    match inp with
    | c :: rest => if p c then [(rest, [])] else []
    | [] => []
  | .opt r, inp => r.run inp ++ [(inp, [])]
  | .rep n r, inp => repeatRun r.run n inp
  | .cat r s, inp => (r.run inp).flatMap fun a => (s.run a.1).map fun b => (b.1, a.2 ++ b.2)
  | .grp i r, inp =>
    (r.run inp).map fun a => (a.1, (i, inp.take (inp.length - a.1.length)) :: a.2)
  | .eot, inp => if inp.isEmpty then [(inp, [])] else []

/-- The constant `hexPattern`, compiled into `parseUUIDRegex`:
`^(urn\:uuid\:)?[\{\(\[]?([[:xdigit:]]{8})-?([[:xdigit:]]{4})-?([1-5][[:xdigit:]]{3})-?([[:xdigit:]]{4})-?([[:xdigit:]]{12})[\]\}\)]?$`
(the digits `1` to `5` are the characters 49 to 53). -/
def hexPattern : Regexp :=
  .cat (.opt (.grp 1 (.lit "urn:uuid:".data)))
  (.cat (.opt (.cls fun c => c == '{' || c == '(' || c == '['))
  (.cat (.grp 2 (.rep 8 (.cls isXDigit)))
  (.cat (.opt (.lit ['-']))
  (.cat (.grp 3 (.rep 4 (.cls isXDigit)))
  (.cat (.opt (.lit ['-']))
  (.cat (.grp 4 (.cat (.cls fun c => 49 ≤ c.toNat && c.toNat ≤ 53) (.rep 3 (.cls isXDigit))))
  (.cat (.opt (.lit ['-']))
  (.cat (.grp 5 (.rep 4 (.cls isXDigit)))
  (.cat (.opt (.lit ['-']))
  (.cat (.grp 6 (.rep 12 (.cls isXDigit)))
  (.cat (.opt (.cls fun c => c == ']' || c == '}' || c == ')'))
  .eot)))))))))))

/-- The element `md[i]` of a submatch slice: the text of group i, empty when the
group took no part in the match. -/
def submatch (md : Captures) (i : Nat) : List Char :=
  match md.find? (fun x => x.1 == i) with
  | some x => x.2
  | none => []

/-- The method `FindStringSubmatch`: the groups of the first outcome, `none` (a nil
slice) when there is no match. -/
def FindStringSubmatch (re : Regexp) (s : List Char) : Option Captures :=
  ((re.run s).head?).map (·.2)

/-- The value of a hexadecimal digit, as `encoding/hex` reads it; `none` for any
other character. -/
def fromHexChar (c : Char) : Option Nat :=
  if 48 ≤ c.toNat ∧ c.toNat ≤ 57 then some (c.toNat - 48)
  else if 97 ≤ c.toNat ∧ c.toNat ≤ 102 then some (c.toNat - 97 + 10)
  else if 65 ≤ c.toNat ∧ c.toNat ≤ 70 then some (c.toNat - 65 + 10)
  else none

/-- The library function `hex.DecodeString`: the bytes of the pairs of digits,
`none` when it returns an error (an odd length or a character that is no digit). -/
def hexDecodeString : List Char → Option (List Nat)
  | [] => some []
  | [_] => none
  | a :: b :: rest =>
    match fromHexChar a, fromHexChar b, hexDecodeString rest with
    | some x, some y, some r => some ((x * 16 + y) :: r)
    | _, _, _ => none

/-- The function `fromHex`: the decoded bytes, or a panic when decoding fails. -/
def fromHex (uuid : List Char) : Outcome (List Nat) :=
  match hexDecodeString uuid with
  | some bytes => .returned bytes
  | none => .panicked

/-- The function `parse`: the pair `([]byte, error)` it returns, or the panic of
`fromHex`. -/
def parse (uuid : String) : Outcome (Option (List Nat) × Option Error) :=
  match FindStringSubmatch hexPattern uuid.data with
  | none => .returned (none, some "uuid: invalid string format this is probably not a UUID")
  | some md =>
    match fromHex
      (submatch md 2 ++ submatch md 3 ++ submatch md 4 ++ submatch md 5 ++ submatch md 6) with
    | .returned bytes => .returned (some bytes, none)
    | .panicked => .panicked

/-- The function `Parse`: the pair `(Uuid, error)` it returns, or the panic of
`fromHex`.  The local array that `unmarshal` fills is not part of the result: the
bytes returned are `id[:]`. -/
def Parse (uuid : String) : Outcome (Option Uuid × Option Error) :=
  match parse uuid with
  | .panicked => .panicked
  | .returned (_, some err) => .returned (none, some err)
  | .returned (id, none) => .returned (id, none)

/-- The six formats documented on `Parse`. -/
def documentedFormats : List String :=
  ["6ba7b8149dad11d180b400c04fd430c8",
   "6ba7b814-9dad-11d1-80b4-00c04fd430c8",
   "\x7b6ba7b814-9dad-11d1-80b4-00c04fd430c8\x7d",
   "urn:uuid:6ba7b814-9dad-11d1-80b4-00c04fd430c8",
   "[6ba7b814-9dad-11d1-80b4-00c04fd430c8]",
   "(6ba7b814-9dad-11d1-80b4-00c04fd430c8)"]

/-- The test data `validHexStrings` of `uuid_test.go`. -/
def validHexStrings : List String :=
  ["6ba7b8149dad-11d1-80b4-00c04fd430c8\x7d",
   "\x7b6ba7b8149dad-11d1-80b400c04fd430c8\x7d",
   "\x7b6ba7b814-9dad11d180b400c04fd430c8\x7d",
   "6ba7b8149dad-11d1-80b4-00c04fd430c8",
   "6ba7b814-9dad11d1-80b4-00c04fd430c8",
   "6ba7b814-9dad-11d180b4-00c04fd430c8",
   "6ba7b814-9dad-11d1-80b400c04fd430c8",
   "6ba7b8149dad11d180b400c04fd430c8",
   "6ba7b814-9dad-11d1-80b4-00c04fd430c8",
   "\x7b6ba7b814-9dad-11d1-80b4-00c04fd430c8\x7d",
   "\x7b6ba7b814-9dad-11d1-80b4-00c04fd430c8",
   "6ba7b814-9dad-11d1-80b4-00c04fd430c8\x7d",
   "(6ba7b814-9dad-11d1-80b4-00c04fd430c8)",
   "urn:uuid:6ba7b814-9dad-11d1-80b4-00c04fd430c8"]

/-- The shape of a UUID string as the documentation of `Parse` describes it, stated
on its own and not through the pattern: an optional `urn:uuid:`, an optional
opening bracket, 8 hexadecimal digits, an optional hyphen, 4 digits, an optional
hyphen, one of the digits 1 to 5 and 3 digits, an optional hyphen, 4 digits, an
optional hyphen, 12 digits, and an optional closing bracket. -/
def HexShape (s : List Char) : Prop :=
  ∃ (pre : Bool) (ob cb : Option Char) (d1 d2 d3 d4 : Bool) (g2 g3 : List Char) (v : Char)
    (g4 g5 g6 : List Char),
    (∀ b, ob = some b → b = '{' ∨ b = '(' ∨ b = '[') ∧
    (∀ b, cb = some b → b = ']' ∨ b = '}' ∨ b = ')') ∧
    g2.length = 8 ∧ g3.length = 4 ∧ v ∈ ['1', '2', '3', '4', '5'] ∧ g4.length = 3 ∧
    g5.length = 4 ∧ g6.length = 12 ∧
    (∀ c ∈ g2 ++ g3 ++ g4 ++ g5 ++ g6, isXDigit c = true) ∧
    s = (if pre then "urn:uuid:".data else []) ++ ob.toList ++
      g2 ++ (if d1 then ['-'] else []) ++
      g3 ++ (if d2 then ['-'] else []) ++
      (v :: g4) ++ (if d3 then ['-'] else []) ++
      g5 ++ (if d4 then ['-'] else []) ++
      g6 ++ cb.toList

/-- The test data `invalidHexStrings` of `uuid_test.go`. -/
def invalidHexStrings : List String :=
  ["foo",
   "6ba7b814-9dad-11d1-80b4-",
   "6ba7b814--9dad-11d1-80b4--00c04fd430c8",
   "6ba7b814-9dad7-11d1-80b4-00c04fd430c8999",
   "\x7b6ba7b814-9dad-1180b4-00c04fd430c8",
   "\x7b6ba7b814--11d1-80b4-00c04fd430c8\x7d",
   "urn:uuid:6ba7b814-9dad-1666666680b4-00c04fd430c8"]

/-! ## Comparing identifiers -/

/-- The constant `Nil`: sixteen zero bytes. -/
def Nil : List Nat := List.replicate 16 0

/-- `binary.BigEndian.Uint32(b)`, that is
`uint32(b[3]) | uint32(b[2])<<8 | uint32(b[1])<<16 | uint32(b[0])<<24`. -/
def BigEndianUint32 (b : List Nat) : Nat :=
  (b.getD 3 0 % 2 ^ 32) ||| (((b.getD 2 0 % 2 ^ 32) <<< 8) % 2 ^ 32) |||
    (((b.getD 1 0 % 2 ^ 32) <<< 16) % 2 ^ 32) ||| (((b.getD 0 0 % 2 ^ 32) <<< 24) % 2 ^ 32)

/-- The library function `bytes.Compare`: -1, 0 or +1 as the first slice is
lexicographically below, equal to or above the second. -/
def bytesCompare : List Nat → List Nat → Int
  | [], [] => 0
  | [], _ :: _ => -1
  | _ :: _, [] => 1
  | x :: xs, y :: ys => if x < y then -1 else if y < x then 1 else bytesCompare xs ys

/-- The function `Compare`; a nil UUID is `none`.  The slice expressions `b[:4]`,
`b[4:6]`, `b[6:8]` and `b[8:]` panic on a slice of fewer than 8 bytes (taking its
capacity to be its length). -/
def Compare (pId pId2 : Option Uuid) : Outcome Int :=
  let b1 := match pId with
    | none => Nil
    | some u => u
  let b2 := match pId2 with
    | none => Nil
    | some u => u
  if b1.length < 8 ∨ b2.length < 8 then .panicked
  else
    let tl1 := BigEndianUint32 (b1.take 4)
    let tl2 := BigEndianUint32 (b2.take 4)
    if tl1 ≠ tl2 then
      if tl1 < tl2 then .returned (-1) else .returned 1
    else
      let m1 := BigEndianUint16 ((b1.drop 4).take 2)
      let m2 := BigEndianUint16 ((b2.drop 4).take 2)
      if m1 ≠ m2 then
        if m1 < m2 then .returned (-1) else .returned 1
      else
        let m1 := BigEndianUint16 ((b1.drop 6).take 2)
        let m2 := BigEndianUint16 ((b2.drop 6).take 2)
        if m1 ≠ m2 then
          if m1 < m2 then .returned (-1) else .returned 1
        else .returned (bytesCompare (b1.drop 8) (b2.drop 8))

/-! ## Sequences of generation calls -/

/-- One generation call on a Generator: `NewV1()` or `NewV2(domain)`. -/
inductive Call where
  | NewV1
  | NewV2 (domain : Nat)
deriving DecidableEq, Repr

/-- The identifier a generation call returns and the Generator afterwards. -/
def Generator.call (o : Generator) (host : Host) : Call → Uuid × Generator
  | .NewV1 => o.NewV1
  | .NewV2 domain => o.NewV2 host domain

/-- Consecutive generation calls on one Generator: the identifiers returned, in
order, and the Generator afterwards. -/
def Generator.calls (o : Generator) (host : Host) : List Call → List Uuid × Generator
  | [] => ([], o)
  | c :: cs => ((o.call host c).1 :: ((o.call host c).2.calls host cs).1,
                ((o.call host c).2.calls host cs).2)

/-! ## The byte layout read back

The package leaves reading the fields to its formatting collaborator; the readers
below follow the table of section 6 of the specification. -/

/-- Modelled from the spec: the layout reader is not part of the sources at hand.
The time-low field, bytes 0-3 big-endian. -/
def timeLowField (id : Uuid) : Nat :=
  ((id.getD 0 0 * 256 + id.getD 1 0) * 256 + id.getD 2 0) * 256 + id.getD 3 0

/-- Modelled from the spec: the layout reader is not part of the sources at hand.
The time-mid field, bytes 4-5 big-endian. -/
def timeMidField (id : Uuid) : Nat :=
  id.getD 4 0 * 256 + id.getD 5 0

/-- Modelled from the spec: the layout reader is not part of the sources at hand.
The time-hi field, the low 12 bits of bytes 6-7. -/
def timeHiField (id : Uuid) : Nat :=
  (id.getD 6 0 * 256 + id.getD 7 0) % 2 ^ 12

/-- Modelled from the spec: the layout reader is not part of the sources at hand.
The version, the high 4 bits of bytes 6-7. -/
def versionField (id : Uuid) : Nat :=
  (id.getD 6 0 * 256 + id.getD 7 0) / 2 ^ 12

/-- Modelled from the spec: the layout reader is not part of the sources at hand.
The 60-bit timestamp: time-low is its low 32 bits, time-mid its bits 32-47,
time-hi its bits 48-59. -/
def timestampField (id : Uuid) : Nat :=
  timeLowField id + 2 ^ 32 * timeMidField id + 2 ^ 48 * timeHiField id

/-- Modelled from the spec: the layout reader is not part of the sources at hand.
The clock sequence, the low 14 bits of bytes 8-9. -/
def clockSeqField (id : Uuid) : Nat :=
  (id.getD 8 0 * 256 + id.getD 9 0) % 2 ^ 14

/-- Modelled from the spec: the layout reader is not part of the sources at hand.
The variant bits, the top 2 bits of bytes 8-9. -/
def variantField (id : Uuid) : Nat :=
  (id.getD 8 0 * 256 + id.getD 9 0) / 2 ^ 14

/-- Modelled from the spec: the layout reader is not part of the sources at hand.
The node, bytes 10-15. -/
def nodeField (id : Uuid) : Node :=
  (id.drop 10).take 6

/-- Modelled from the spec: the layout reader is not part of the sources at hand.
The triple read back from an identifier, as the round-trip property of section 8
reads it: timestamp, clock sequence and node. -/
def decode (id : Uuid) : Store :=
  { Timestamp := timestampField id, Sequence := clockSeqField id, Node := nodeField id }

/-! ## Concurrent callers of `NewV1`

`NewV1` calls `o.read()`, which takes the lock of the Generator, updates the state
and releases the lock on return; the statements that follow read `o.Timestamp`,
`o.Sequence` and `o.Node` with no lock held.  A call on a shared Generator is
therefore two steps, and the steps of different callers interleave. -/

/-- The statements of `NewV1` after `o.read()`: the sixteen bytes built from
`o.Timestamp`, `o.Sequence` and `o.Node` as the shared Generator holds them when
the caller reaches these lines, with the version stamped in. -/
def Generator.encodeV1 (o : Generator) : Uuid :=
  setRFC4122Version (makeUuid arrayZero
    (o.Store.Timestamp % 2 ^ 32)
    (o.Store.Timestamp / 2 ^ 32 % 2 ^ 16)
    (o.Store.Timestamp / 2 ^ 48 % 2 ^ 16)
    (o.Store.Sequence % 2 ^ 16)
    o.Store.Node) 1

/-- Where a caller of `NewV1` stands: before `o.read()`, between `o.read()` and the
encoding, or after its return. -/
inductive Phase where
  | idle
  | hasRead
  | returned
deriving DecidableEq, Repr

/-- A Generator shared by concurrent callers of `NewV1`, numbered 0, 1, ...: the
Generator, where each caller stands, and the identifiers returned so far, each
with its caller, in the order of the returns. -/
structure Shared where
  gen : Generator
  phase : Nat → Phase
  results : List (Nat × Uuid)

/-- The shared Generator before any caller has started. -/
def Shared.start (o : Generator) : Shared :=
  { gen := o, phase := fun _ => .idle, results := [] }

/-- Caller i runs its next step: `o.read()` (under the lock, together with the
deferred `save`) when it has not started, the encoding of the identifier from the
shared state when it has read; a caller that has returned does nothing more. -/
def Shared.step (s : Shared) (i : Nat) : Shared :=
  match s.phase i with
  | .idle =>
    { s with gen := s.gen.read, phase := fun j => if j = i then .hasRead else s.phase j }
  | .hasRead =>
    { s with phase := fun j => if j = i then .returned else s.phase j,
             results := s.results ++ [(i, s.gen.encodeV1)] }
  | .returned => s

/-- The steps of a schedule, in order: each entry names the caller that moves. -/
def Shared.run (s : Shared) (schedule : List Nat) : Shared :=
  schedule.foldl Shared.step s

/-- A schedule is an interleaving of n calls when it names only the callers below
n and each of them exactly twice: once for its `read`, once for its encoding. -/
def Interleaving (n : Nat) (schedule : List Nat) : Prop :=
  (∀ i ∈ schedule, i < n) ∧ ∀ i, i < n → schedule.count i = 2

/-! ## Concrete inputs used in the evaluations below -/

/-- A configuration with a hardware node `01:02:03:04:05:06`, a clock answering
1000, 1001, ... and a `Random` that always writes the bytes `12 34`. -/
def sampleConfig : GeneratorConfig :=
  { Next := some (fun k => 1000 + k)
    Id := some (some [1, 2, 3, 4, 5, 6])
    Random := some (fun _ => { bytes := [0x12, 0x34] }) }

/-- The Generator `newGenerator` builds from `sampleConfig`: freshly constructed,
`init` has not run on it. -/
def sampleFresh : Generator := newGenerator {} sampleConfig

/-- A Saver whose load succeeds with the persisted state
`(timestamp 5000, sequence 7, node 01:02:03:04:05:06)`. -/
def sampleSaver : Saver :=
  { Read := ({ Timestamp := 5000, Sequence := 7, Node := [1, 2, 3, 4, 5, 6] }, none) }

/-- The Generator of the worked scenario of section 8: node `01:02:03:04:05:06`,
sequence 0x1234, and a clock that answers the timestamp 0x0123456789ABCDE, later
than the stored timestamp 0, so that `read` keeps the sequence. -/
def scenarioGenerator : Generator :=
  { Store := { Sequence := 0x1234, Node := [1, 2, 3, 4, 5, 6] }
    Next := fun _ => 0x0123456789ABCDE }

/-- A configuration as `sampleConfig`, with a clock that never advances: every
reading is 1000. -/
def standingConfig : GeneratorConfig :=
  { Next := some (fun _ => 1000)
    Id := some (some [1, 2, 3, 4, 5, 6])
    Random := some (fun _ => { bytes := [0x12, 0x34] }) }

/-- The Generator `newGenerator` builds from `standingConfig`, after `init` has run
on it through its `sync.Once`: timestamp 1000, sequence 0x1234, node
`01:02:03:04:05:06`. -/
def standingGenerator : Generator := (newGenerator {} standingConfig).Do Generator.init

/-! ## The clock-sequence engine: `read` -/

/-- The method `save` leaves the Store as it is. -/
theorem save_Store (o : Generator) : o.save.Store = o.Store := by
  unfold Generator.save
  cases o.Saver <;> rfl

/-- The Store after `read`, in closed form. -/
theorem read_Store (o : Generator) :
    o.read.Store =
      { Timestamp := o.Next o.nextCalls
        Sequence :=
          if o.Next o.nextCalls ≤ o.Store.Timestamp then (o.Store.Sequence + 1) % 2 ^ 16
          else o.Store.Sequence
        Node := o.Store.Node } := by
  unfold Generator.read
  dsimp only
  split
  · rw [save_Store]
  · rfl

/-- The method `save` leaves the clock as it is. -/
theorem save_Next (o : Generator) : o.save.Next = o.Next ∧ o.save.nextCalls = o.nextCalls := by
  unfold Generator.save
  cases o.Saver <;> exact ⟨rfl, rfl⟩

/-- The call `read` consumes one answer of `Next`. -/
theorem read_Next (o : Generator) : o.read.Next = o.Next ∧ o.read.nextCalls = o.nextCalls + 1 := by
  unfold Generator.read
  dsimp only
  split
  · exact ⟨(save_Next _).1, (save_Next _).2⟩
  · exact ⟨rfl, rfl⟩

/-- The Generator after a generation call is the Generator after `read`. -/
theorem call_state (o : Generator) (host : Host) (c : Call) : (o.call host c).2 = o.read := by
  cases c <;> rfl

/-- The Generator after the calls `c :: cs` is the one after `read` and then `cs`. -/
theorem calls_cons_state (o : Generator) (host : Host) (c : Call) (cs : List Call) :
    (o.calls host (c :: cs)).2 = (o.read.calls host cs).2 := by
  show ((o.call host c).2.calls host cs).2 = _
  rw [call_state]

/-- After a sequence of generation calls the clock has been read once per call. -/
theorem calls_Next (host : Host) (cs : List Call) :
    ∀ o : Generator, (o.calls host cs).2.Next = o.Next ∧
      (o.calls host cs).2.nextCalls = o.nextCalls + cs.length := by
  induction cs with
  | nil => intro o; exact ⟨rfl, rfl⟩
  | cons c cs ih =>
    intro o
    have h := ih o.read
    rw [(read_Next o).1, (read_Next o).2] at h
    rw [calls_cons_state, List.length_cons]
    refine ⟨h.1, ?_⟩
    rw [h.2]
    omega

/-- With a clock that never regresses, the stored timestamp stays at or below the
next reading throughout a sequence of generation calls. -/
theorem calls_Timestamp_le (host : Host) (cs : List Call) :
    ∀ o : Generator, o.Store.Timestamp ≤ o.Next o.nextCalls → (∀ i, o.Next i ≤ o.Next (i + 1)) →
      (o.calls host cs).2.Store.Timestamp ≤ o.Next (o.nextCalls + cs.length) := by
  induction cs with
  | nil => intro o h _; exact h
  | cons c cs ih =>
    intro o _ hmono
    have h := ih o.read
    rw [(read_Next o).1, (read_Next o).2, read_Store] at h
    rw [calls_cons_state, List.length_cons]
    have e : o.nextCalls + (cs.length + 1) = o.nextCalls + 1 + cs.length := by omega
    rw [e]
    exact h (hmono _) hmono

/-- C1. For every Generator state (timestamp t, sequence s, node n) and every clock
reading `now` that `Next` returns, `read` leaves the timestamp equal to `now`, the
node equal to n, and the sequence equal to s + 1 (the increment of a `uint16`,
which is s + 1 for every s below 0xFFFF) when `now <= t` and equal to s when
`now > t`. -/
theorem read_state_update (o : Generator) :
    o.read.Store.Timestamp = o.Next o.nextCalls ∧
    o.read.Store.Node = o.Store.Node ∧
    (o.Next o.nextCalls ≤ o.Store.Timestamp →
      o.read.Store.Sequence = (o.Store.Sequence + 1) % 2 ^ 16 ∧
      (o.Store.Sequence < 0xFFFF → o.read.Store.Sequence = o.Store.Sequence + 1)) ∧
    (o.Store.Timestamp < o.Next o.nextCalls → o.read.Store.Sequence = o.Store.Sequence) := by
  rw [read_Store]
  refine ⟨rfl, rfl, ?_, ?_⟩
  · intro h
    simp only [if_pos h]
    refine ⟨trivial, fun hs => ?_⟩
    omega
  · intro h
    have h' : ¬ o.Next o.nextCalls ≤ o.Store.Timestamp := by omega
    simp only [if_neg h']

/-! ## Initialization -/

/-- C2 (the code at the failing input). On the freshly constructed Generator
`sampleFresh`, `init` would commit the node `01:02:03:04:05:06` and the sequence
0x1234, but the first `NewV1` and the first `NewV2` do not run `init`: the
`sync.Once` is still unused afterwards, `Random` has not been read, and the
identifiers carry the empty node (six zero bytes) and the sequence 0 of the empty
state.  The package-level `NewV1` on the same default generator returns the same
identifier. -/
theorem newV1_does_not_run_init :
    sampleFresh.done = false ∧
    sampleFresh.init.Store = { Timestamp := 1000, Sequence := 0x1234, Node := [1, 2, 3, 4, 5, 6] } ∧
    sampleFresh.NewV1.1 = [0, 0, 0x03, 0xE8, 0, 0, 0x10, 0, 0x80, 0, 0, 0, 0, 0, 0, 0] ∧
    sampleFresh.NewV1.2.done = false ∧
    sampleFresh.NewV1.2.randomCalls = 0 ∧
    sampleFresh.NewV1.2.Store = { Timestamp := 1000, Sequence := 0, Node := [] } ∧
    (sampleFresh.NewV2 {} DomainUser).1 = [0, 0, 0, 0, 0, 0, 0x20, 0, 0x80, 1, 0, 0, 0, 0, 0, 0] ∧
    (sampleFresh.NewV2 {} DomainUser).2.done = false ∧
    (NewV1 { generator := sampleFresh }).1 = sampleFresh.NewV1.1 := by
  refine ⟨rfl, ?_, ?_, rfl, rfl, ?_, ?_, rfl, rfl⟩ <;> decide

/-- Big-endian reading of a two-byte buffer. -/
theorem BigEndianUint16_pair (b0 b1 : Nat) (h0 : b0 < 256) (h1 : b1 < 256) :
    BigEndianUint16 [b0, b1] = b0 * 256 + b1 := by
  unfold BigEndianUint16
  have e1 : b1 % 2 ^ 16 = b1 := Nat.mod_eq_of_lt (by omega)
  have e0 : b0 % 2 ^ 16 = b0 := Nat.mod_eq_of_lt (by omega)
  have e2 : b0 * 2 ^ 8 % 2 ^ 16 = b0 * 2 ^ 8 := Nat.mod_eq_of_lt (by omega)
  have e3 := Nat.mul_add_lt_is_or (show b1 < 2 ^ 8 by omega) b0
  simp only [List.getD_cons_zero, List.getD_cons_succ, e0, e1, Nat.shiftLeft_eq, e2]
  rw [Nat.lor_comm, Nat.mul_comm, ← e3]
  omega

/-- The sequence step of `init` when the persisted state is unusable and
`Random` succeeds: the state committed. -/
theorem initCommit_fresh (o : Generator) (storage : Store) (now : Nat) (node : Node)
    (h : o.Saver = none ∨ storage.Node ≠ node) (hr : (o.Random o.randomCalls).err = none) :
    (o.initCommit storage now node).Store =
      { Timestamp := now
        Sequence := BigEndianUint16 (copy (make 2) (o.Random o.randomCalls).bytes) % 2 ^ 16
        Node := node } := by
  have hc : (o.Saver.isNone || !(storage.Node == node)) = true := by
    rcases h with h | h
    · simp [h]
    · simp [h]
  unfold Generator.initCommit
  rw [if_pos hc]
  simp only [hr]

/-- The sequence step of `init` when the persisted state is usable: the state
committed, and `Random` is left alone. -/
theorem initCommit_kept (o : Generator) (storage : Store) (now : Nat) (node : Node)
    (hs : o.Saver.isSome = true) (h : storage.Node = node) :
    (o.initCommit storage now node).Store =
      { Timestamp := now
        Sequence := if now < storage.Timestamp then (storage.Sequence + 1) % 2 ^ 16
                    else storage.Sequence
        Node := node } ∧
    (o.initCommit storage now node).randomCalls = o.randomCalls ∧
    (o.initCommit storage now node).err = o.err := by
  have hc : ¬ (o.Saver.isNone || !(storage.Node == node)) = true := by
    cases hS : o.Saver with
    | none => simp [hS] at hs
    | some sv => simp [h]
  unfold Generator.initCommit
  rw [if_neg hc]
  split <;> exact ⟨rfl, rfl, rfl⟩

/-- What `init` does before the sequence step, in closed form: the Saver is
dropped when its load fails, the clock is read once, and the node is the one `Id`
returns or, when `Id` returns nil and `Random` succeeds, six bytes of `Random`
with the lowest bit of the first byte set. -/
theorem init_eq (o : Generator) :
    o.init =
      (let storage : Store := match o.Saver with
          | some sv => sv.Read.1
          | none => {}
       let saver : Option Saver := match o.Saver with
          | some sv => if sv.Read.2.isSome then none else some sv
          | none => none
       let now := o.Next o.nextCalls
       let o2 : Generator := { o with Saver := saver, nextCalls := o.nextCalls + 1 }
       match o.Id with
       | some node => o2.initCommit storage now node
       | none =>
         let r := o.Random o.randomCalls
         let o3 : Generator := { o2 with randomCalls := o.randomCalls + 1 }
         let node := copy (make 6) r.bytes
         match r.err with
         | some e => { o3 with err := some e }
         | none => o3.initCommit storage now (node.set 0 (node.getD 0 0 ||| 0x01))) := by
  unfold Generator.init
  cases hS : o.Saver with
  | none =>
    have : o = { o with Saver := none } := by rw [← hS]
    cases hI : o.Id <;> simp [hS, hI]
  | some sv =>
    cases hR : sv.Read.2 <;> cases hI : o.Id <;> simp [hS, hI, hR]

/-- C3. At initialization, let `node` be the resolved node (the one `Id` returns,
or, when `Id` returns nil and `Random` succeeds, the six bytes of `Random` with the
lowest bit of the first byte set) and let the k-th answer of `Random` be the one
that serves the sequence.  If no Saver is configured, or its load failed, or the
persisted node differs from `node`, and `Random` succeeds with the two bytes
`b0 b1`, then the committed state is the clock reading, the fresh sequence
`b0 * 256 + b1` and `node`, whatever the persisted sequence and timestamp are. -/
theorem init_fresh_sequence (o : Generator) (node : Node) (k b0 b1 : Nat)
    (hnode : (o.Id = some node ∧ k = o.randomCalls) ∨
      (o.Id = none ∧ (o.Random o.randomCalls).err = none ∧
        node = (copy (make 6) (o.Random o.randomCalls).bytes).set 0
          ((copy (make 6) (o.Random o.randomCalls).bytes).getD 0 0 ||| 0x01) ∧
        k = o.randomCalls + 1))
    (hpers : o.Saver = none ∨
      ∃ sv, o.Saver = some sv ∧ (sv.Read.2 ≠ none ∨ sv.Read.1.Node ≠ node))
    (hbytes : (o.Random k).bytes = [b0, b1]) (herr : (o.Random k).err = none)
    (hb0 : b0 < 256) (hb1 : b1 < 256) :
    o.init.Store =
      { Timestamp := o.Next o.nextCalls, Sequence := b0 * 256 + b1, Node := node } := by
  have hseq : BigEndianUint16 (copy (make 2) [b0, b1]) % 2 ^ 16 = b0 * 256 + b1 := by
    have : copy (make 2) [b0, b1] = [b0, b1] := rfl
    rw [this, BigEndianUint16_pair b0 b1 hb0 hb1]
    omega
  rw [init_eq]
  rcases hnode with ⟨hI, hk⟩ | ⟨hI, hr1, hn, hk⟩
  · subst hk
    simp only [hI]
    refine (initCommit_fresh _ _ _ _ ?_ ?_).trans ?_
    rotate_left
    · exact herr
    · show Store.mk _ (BigEndianUint16 (copy (make 2) (o.Random _).bytes) % 2 ^ 16) _ = _
      rw [hbytes, hseq]
    · rcases hpers with hS | ⟨sv, hS, hR | hN⟩
      · left; simp only [hS]
      · left
        cases hR2 : sv.Read.2 with
        | none => exact absurd hR2 hR
        | some e => simp only [hS, hR2, Option.isSome_some, if_true]
      · right; simpa only [hS] using hN
  · subst hk
    simp only [hI, hr1, ← hn]
    refine (initCommit_fresh _ _ _ _ ?_ ?_).trans ?_
    rotate_left
    · exact herr
    · show Store.mk _ (BigEndianUint16 (copy (make 2) (o.Random _).bytes) % 2 ^ 16) _ = _
      rw [hbytes, hseq]
    · rcases hpers with hS | ⟨sv, hS, hR | hN⟩
      · left; simp only [hS]
      · left
        cases hR2 : sv.Read.2 with
        | none => exact absurd hR2 hR
        | some e => simp only [hS, hR2, Option.isSome_some, if_true]
      · right; simpa only [hS] using hN

/-- C3, at a concrete input: a Saver whose persisted node `0A:..` differs from the
hardware node, a clock answering 1000 and a `Random` writing `12 34`. -/
theorem init_fresh_sequence_witness :
    ({ sampleFresh with
        Saver := some { Read := ({ Timestamp := 9, Sequence := 7, Node := [10, 2, 3, 4, 5, 6] }, none) }
      } : Generator).init.Store =
      { Timestamp := 1000, Sequence := 0x12 * 256 + 0x34, Node := [1, 2, 3, 4, 5, 6] } :=
  init_fresh_sequence _ [1, 2, 3, 4, 5, 6] 0 0x12 0x34 (Or.inl ⟨rfl, rfl⟩)
    (Or.inr ⟨_, rfl, Or.inr (by decide)⟩) rfl rfl (by decide) (by decide)

/-- C4. At initialization with a Saver whose load succeeds and whose persisted
node equals the resolved node `node` (the one `Id` returns, or the marked random
node when `Id` returns nil and `Random` succeeds), the committed state has the
clock reading as timestamp, `node` as node, and as sequence the persisted sequence
plus one (as a `uint16`, with wraparound) when the reading is earlier than the
persisted timestamp and the persisted sequence unchanged otherwise; `Random` is
not read for the sequence (it has been read k times afterwards, where k counts
the reads made for the node) and no error is recorded. -/
theorem init_persisted_sequence (o : Generator) (sv : Saver) (node : Node) (k : Nat)
    (hS : o.Saver = some sv) (hload : sv.Read.2 = none)
    (hnode : (o.Id = some node ∧ k = o.randomCalls) ∨
      (o.Id = none ∧ (o.Random o.randomCalls).err = none ∧
        node = (copy (make 6) (o.Random o.randomCalls).bytes).set 0
          ((copy (make 6) (o.Random o.randomCalls).bytes).getD 0 0 ||| 0x01) ∧
        k = o.randomCalls + 1))
    (hsame : sv.Read.1.Node = node) :
    o.init.Store.Timestamp = o.Next o.nextCalls ∧
    o.init.Store.Node = node ∧
    (o.Next o.nextCalls < sv.Read.1.Timestamp →
      o.init.Store.Sequence = (sv.Read.1.Sequence + 1) % 2 ^ 16) ∧
    (sv.Read.1.Timestamp ≤ o.Next o.nextCalls →
      o.init.Store.Sequence = sv.Read.1.Sequence) ∧
    o.init.randomCalls = k ∧
    o.init.err = o.err := by
  have key : o.init.Store =
      { Timestamp := o.Next o.nextCalls
        Sequence := if o.Next o.nextCalls < sv.Read.1.Timestamp
                    then (sv.Read.1.Sequence + 1) % 2 ^ 16 else sv.Read.1.Sequence
        Node := node } ∧ o.init.randomCalls = k ∧ o.init.err = o.err := by
    rw [init_eq]
    rcases hnode with ⟨hI, hk⟩ | ⟨hI, hr1, hn, hk⟩
    · subst hk
      simp only [hI, hS, hload]
      exact initCommit_kept _ _ _ _ rfl hsame
    · subst hk
      simp only [hI, hS, hload, hr1, ← hn]
      exact initCommit_kept _ _ _ _ rfl hsame
  obtain ⟨hst, hk, he⟩ := key
  rw [hst]
  refine ⟨rfl, rfl, ?_, ?_, hk, he⟩
  · intro h
    simp only [if_pos h]
  · intro h
    have h' : ¬ o.Next o.nextCalls < sv.Read.1.Timestamp := by omega
    simp only [if_neg h']

/-- C4, at a concrete input: the persisted state `(5000, 7, 01:02:03:04:05:06)`,
the same hardware node and a clock answering 1000, earlier than 5000. -/
theorem init_persisted_sequence_witness :
    ({ sampleFresh with Saver := some sampleSaver } : Generator).init.Store =
      { Timestamp := 1000, Sequence := 8, Node := [1, 2, 3, 4, 5, 6] } ∧
    ({ sampleFresh with Saver := some sampleSaver } : Generator).init.randomCalls = 0 := by
  have h := init_persisted_sequence { sampleFresh with Saver := some sampleSaver } sampleSaver
    [1, 2, 3, 4, 5, 6] 0 rfl rfl (Or.inl ⟨rfl, rfl⟩) rfl
  exact ⟨by decide, h.2.2.2.2.1⟩

/-! ## The encoder -/

/-- The sixteen bytes `makeUuid` writes into a zero array. -/
theorem makeUuid_arrayZero (low mid hiAndV seq : Nat) (node : Node) :
    makeUuid arrayZero low mid hiAndV seq node =
      [low / 2 ^ 24 % 256, low / 2 ^ 16 % 256, low / 2 ^ 8 % 256, low % 256,
       mid / 2 ^ 8 % 256, mid % 256, hiAndV / 2 ^ 8 % 256, hiAndV % 256,
       seq / 2 ^ 8 % 256, seq % 256] ++ copy (make 6) node := rfl

/-- The identifier `NewV1` returns, byte by byte, from the state after `read`. -/
theorem NewV1_bytes (o : Generator) :
    o.NewV1.1 =
      [o.read.Store.Timestamp % 2 ^ 32 / 2 ^ 24 % 256,
       o.read.Store.Timestamp % 2 ^ 32 / 2 ^ 16 % 256,
       o.read.Store.Timestamp % 2 ^ 32 / 2 ^ 8 % 256,
       o.read.Store.Timestamp % 2 ^ 32 % 256,
       o.read.Store.Timestamp / 2 ^ 32 % 2 ^ 16 / 2 ^ 8 % 256,
       o.read.Store.Timestamp / 2 ^ 32 % 2 ^ 16 % 256,
       1 % 16 * 16 + o.read.Store.Timestamp / 2 ^ 48 % 2 ^ 16 / 2 ^ 8 % 256 % 16,
       o.read.Store.Timestamp / 2 ^ 48 % 2 ^ 16 % 256,
       2 * 64 + o.read.Store.Sequence % 2 ^ 16 / 2 ^ 8 % 256 % 64,
       o.read.Store.Sequence % 2 ^ 16 % 256] ++ copy (make 6) o.read.Store.Node := rfl

/-- The Generator after `NewV1` is the Generator after `read`. -/
theorem NewV1_state (o : Generator) : o.NewV1.2 = o.read := rfl

/-! ## The stored timestamp over a sequence of calls -/

/-- C5 (counterexample). A Generator whose stored timestamp is 5000 and whose clock
answers 1000: after the call the stored timestamp is 1000, lower than before. -/
theorem timestamp_regresses :
    ({ Store := { Timestamp := 5000 }, Next := fun _ => 1000 } : Generator).Store.Timestamp = 5000 ∧
    ({ Store := { Timestamp := 5000 }, Next := fun _ => 1000 } : Generator).NewV1.2.Store.Timestamp
      = 1000 ∧
    ({ Store := { Timestamp := 5000 }, Next := fun _ => 1000 } : Generator).NewV1.2.Store.Timestamp <
      ({ Store := { Timestamp := 5000 }, Next := fun _ => 1000 } : Generator).Store.Timestamp := by
  decide

/-- C5 (as amended). For every sequence of generation calls `cs` on one Generator,
every sequence of clock readings and every further call `c`: after the call the
stored timestamp is the clock reading of that call; it is at least its value before
the call exactly when the reading is not below the stored timestamp, which is so
after every call when the readings never regress; and an equal-or-regressed
reading advances the sequence, the stored timestamp being set to the reading. -/
theorem timestamp_follows_clock (o : Generator) (host : Host) (cs : List Call) (c : Call) :
    (((o.calls host cs).2.call host c).2.Store.Timestamp = o.Next (o.nextCalls + cs.length)) ∧
    ((o.calls host cs).2.Store.Timestamp ≤ ((o.calls host cs).2.call host c).2.Store.Timestamp ↔
      (o.calls host cs).2.Store.Timestamp ≤ o.Next (o.nextCalls + cs.length)) ∧
    ((o.Store.Timestamp ≤ o.Next o.nextCalls ∧ ∀ i, o.Next i ≤ o.Next (i + 1)) →
      (o.calls host cs).2.Store.Timestamp ≤ ((o.calls host cs).2.call host c).2.Store.Timestamp) ∧
    (o.Next (o.nextCalls + cs.length) ≤ (o.calls host cs).2.Store.Timestamp →
      ((o.calls host cs).2.call host c).2.Store.Sequence =
        ((o.calls host cs).2.Store.Sequence + 1) % 2 ^ 16) := by
  have hN := calls_Next host cs o
  rw [call_state, read_Store, hN.1, hN.2]
  refine ⟨rfl, Iff.rfl, ?_, ?_⟩
  · intro h
    exact calls_Timestamp_le host cs o h.1 h.2
  · intro h
    simp only [if_pos h]

/-! ## The clock-sequence field -/

/-- The clock-sequence field of the identifier `NewV1` returns is the low 14 bits
of the sequence after `read`. -/
theorem NewV1_clockSeqField (o : Generator) :
    clockSeqField o.NewV1.1 = o.read.Store.Sequence % 2 ^ 14 := by
  rw [NewV1_bytes]
  unfold clockSeqField
  simp only [List.cons_append, List.getD_cons_succ, List.getD_cons_zero]
  omega

/-- C6. For two consecutive `NewV1` calls on one Generator, if the clock reading
of the second call is not later than the timestamp of the first call, the 14-bit
clock-sequence field of the second identifier is that of the first plus 1 modulo
2^14, for every starting sequence (0x3FFF and 0xFFFF included, where the field
wraps to 0). -/
theorem clockSeq_advances (o : Generator)
    (h : o.Next (o.nextCalls + 1) ≤ o.NewV1.2.Store.Timestamp) :
    clockSeqField o.NewV1.2.NewV1.1 = (clockSeqField o.NewV1.1 + 1) % 2 ^ 14 := by
  rw [NewV1_clockSeqField, NewV1_clockSeqField, NewV1_state] at *
  rw [read_Store o.read, (read_Next o).1, (read_Next o).2]
  simp only [if_pos h]
  omega

/-- C6, at a concrete input: the sequence 0x3FFF and a clock that stands at 1000;
the field goes from 0 (the first call wraps it) to 1. -/
theorem clockSeq_advances_witness :
    clockSeqField ({ Store := { Timestamp := 1000, Sequence := 0x3FFF }, Next := fun _ => 1000 }
      : Generator).NewV1.2.NewV1.1 =
    (clockSeqField ({ Store := { Timestamp := 1000, Sequence := 0x3FFF }, Next := fun _ => 1000 }
      : Generator).NewV1.1 + 1) % 2 ^ 14 :=
  clockSeq_advances _ (by decide)

/-! ## Fields of the identifiers returned -/

/-- The identifier `NewV2` returns, byte by byte, from the state after `read`. -/
theorem NewV2_bytes (o : Generator) (host : Host) (domain : Nat) (low : Nat)
    (hlow : low = if domain = DomainUser then (host.Getuid % 2 ^ 32).toNat
      else if domain = DomainGroup then (host.Getgid % 2 ^ 32).toNat else 0) :
    (o.NewV2 host domain).1 =
      [low / 2 ^ 24 % 256, low / 2 ^ 16 % 256, low / 2 ^ 8 % 256, low % 256,
       o.read.Store.Timestamp / 2 ^ 32 % 2 ^ 16 / 2 ^ 8 % 256,
       o.read.Store.Timestamp / 2 ^ 32 % 2 ^ 16 % 256,
       2 % 16 * 16 + o.read.Store.Timestamp / 2 ^ 48 % 2 ^ 16 / 2 ^ 8 % 256 % 16,
       o.read.Store.Timestamp / 2 ^ 48 % 2 ^ 16 % 256,
       2 * 64 + o.read.Store.Sequence % 2 ^ 16 / 2 ^ 8 % 256 % 64,
       domain % 256] ++ copy (make 6) o.read.Store.Node := by
  subst hlow
  rfl

/-- The timestamp field of the identifier `NewV1` returns is the low 60 bits of
the clock reading. -/
theorem NewV1_timestampField (o : Generator) :
    timestampField o.NewV1.1 = o.Next o.nextCalls % 2 ^ 60 := by
  rw [NewV1_bytes, read_Store]
  unfold timestampField timeLowField timeMidField timeHiField
  simp only [List.cons_append, List.getD_cons_succ, List.getD_cons_zero]
  omega

/-- The version field of the identifier `NewV1` returns is 1. -/
theorem NewV1_versionField (o : Generator) : versionField o.NewV1.1 = 1 := by
  rw [NewV1_bytes]
  unfold versionField
  simp only [List.cons_append, List.getD_cons_succ, List.getD_cons_zero]
  omega

/-- The version field of the identifier `NewV2` returns is 2. -/
theorem NewV2_versionField (o : Generator) (host : Host) (domain : Nat) :
    versionField (o.NewV2 host domain).1 = 2 := by
  rw [NewV2_bytes o host domain _ rfl]
  unfold versionField
  simp only [List.cons_append, List.getD_cons_succ, List.getD_cons_zero]
  omega

/-- Bits 32-59 of the timestamp field of the identifier `NewV2` returns are
bits 32-59 of the clock reading. -/
theorem NewV2_timestampField (o : Generator) (host : Host) (domain : Nat) :
    timestampField (o.NewV2 host domain).1 / 2 ^ 32 = o.Next o.nextCalls % 2 ^ 60 / 2 ^ 32 := by
  rw [NewV2_bytes o host domain _ rfl, read_Store]
  unfold timestampField timeLowField timeMidField timeHiField
  simp only [List.cons_append, List.getD_cons_succ, List.getD_cons_zero]
  omega

/-! ## Distinct identifiers under an advancing clock -/

/-- After i calls of `read` the clock has been read i times. -/
theorem iterate_read_Next (i : Nat) :
    ∀ o : Generator, (Generator.read^[i] o).Next = o.Next ∧
      (Generator.read^[i] o).nextCalls = o.nextCalls + i := by
  induction i with
  | zero => intro o; exact ⟨rfl, rfl⟩
  | succ i ih =>
    intro o
    rw [Function.iterate_succ_apply, (ih o.read).1, (ih o.read).2, (read_Next o).1,
      (read_Next o).2]
    exact ⟨rfl, by omega⟩

/-- As many identifiers are returned as calls are made. -/
theorem calls_length (host : Host) (cs : List Call) :
    ∀ o : Generator, (o.calls host cs).1.length = cs.length := by
  induction cs with
  | nil => intro o; rfl
  | cons c cs ih =>
    intro o
    show ((o.call host c).2.calls host cs).1.length + 1 = cs.length + 1
    rw [ih]

/-- The i-th identifier of a sequence of calls is the one the i-th call returns
on the Generator reached after i calls of `read`. -/
theorem calls_getElem (host : Host) (cs : List Call) :
    ∀ (o : Generator) (i : Nat) (c : Call), cs[i]? = some c →
      (o.calls host cs).1[i]? = some ((Generator.read^[i] o).call host c).1 := by
  induction cs with
  | nil => intro o i c h; simp at h
  | cons c0 cs ih =>
    intro o i c h
    cases i with
    | zero =>
      simp only [List.getElem?_cons_zero, Option.some.injEq] at h
      subst h
      show (((o.call host c0).1 :: ((o.call host c0).2.calls host cs).1))[0]? = _
      rw [List.getElem?_cons_zero]
      rfl
    | succ i =>
      simp only [List.getElem?_cons_succ] at h
      have h2 := ih (o.call host c0).2 i c h
      rw [call_state] at h2
      show (((o.call host c0).1 :: ((o.call host c0).2.calls host cs).1))[i + 1]? = _
      rw [List.getElem?_cons_succ, call_state, Function.iterate_succ_apply]
      exact h2

/-- C7 (counterexample). Two strictly increasing clocks on which two consecutive
calls return the same identifier: two `NewV2(DomainUser)` calls at the readings
1000 and 1001, and two `NewV1` calls at the readings 10 and 10 + 2^60.  With the
readings 2^60 - 1 and 2^60 the timestamp embedded by `NewV1` falls from 2^60 - 1
to 0. -/
theorem advancing_clock_duplicates :
    (∀ i j : Nat, i < j → 1000 + i < 1000 + j) ∧
    (({ Next := fun k => 1000 + k } : Generator).calls {} [.NewV2 DomainUser, .NewV2 DomainUser]).1 =
      [[0, 0, 0, 0, 0, 0, 0x20, 0, 0x80, 1, 0, 0, 0, 0, 0, 0],
       [0, 0, 0, 0, 0, 0, 0x20, 0, 0x80, 1, 0, 0, 0, 0, 0, 0]] ∧
    (∀ i j : Nat, i < j → 10 + i * 2 ^ 60 < 10 + j * 2 ^ 60) ∧
    (({ Next := fun k => 10 + k * 2 ^ 60 } : Generator).calls {} [.NewV1, .NewV1]).1 =
      [[0, 0, 0, 10, 0, 0, 0x10, 0, 0x80, 0, 0, 0, 0, 0, 0, 0],
       [0, 0, 0, 10, 0, 0, 0x10, 0, 0x80, 0, 0, 0, 0, 0, 0, 0]] ∧
    (({ Next := fun k => 2 ^ 60 - 1 + k } : Generator).calls {} [.NewV1, .NewV1]).1.map timestampField =
      [2 ^ 60 - 1, 0] := by
  refine ⟨fun i j h => by omega, by decide, fun i j h => by omega, by decide, by decide⟩

/-- The fields of the identifier one generation call returns: the version is 1
for `NewV1` and 2 for `NewV2`, bits 32-59 of the timestamp field are those of the
clock reading, the whole timestamp field of a `NewV1` identifier is the low 60
bits of the reading, and byte 9 of a `NewV2` identifier is the domain. -/
theorem call_fields (o : Generator) (host : Host) (c : Call) :
    versionField (o.call host c).1 = (match c with | .NewV1 => 1 | .NewV2 _ => 2) ∧
    timestampField (o.call host c).1 / 2 ^ 32 = o.Next o.nextCalls % 2 ^ 60 / 2 ^ 32 ∧
    (c = .NewV1 → timestampField (o.call host c).1 = o.Next o.nextCalls % 2 ^ 60) ∧
    (∀ d, c = .NewV2 d → (o.call host c).1.getD 9 0 = d % 256) := by
  cases c with
  | NewV1 =>
    refine ⟨NewV1_versionField o, ?_, fun _ => NewV1_timestampField o, fun d h => by cases h⟩
    show timestampField o.NewV1.1 / 2 ^ 32 = _
    rw [NewV1_timestampField]
  | NewV2 domain =>
    refine ⟨NewV2_versionField o host domain, NewV2_timestampField o host domain,
      (fun h => by cases h), fun d h => ?_⟩
    cases h
    show (o.NewV2 host domain).1.getD 9 0 = _
    rw [NewV2_bytes o host domain _ rfl]
    rfl

/-- C7 (as amended). For every sequence `cs` of generation calls (each `NewV1` or
`NewV2`) on one Generator whose clock readings during these calls are strictly
increasing and below 2^60, and all positions i < j: both calls return an
identifier; the two identifiers differ when one of the calls is `NewV1`, and also
when both are `NewV2` with different domain bytes or with readings that differ in
bits 32-59; bits 32-59 of the embedded timestamp are non-decreasing over all the
identifiers, and the whole embedded timestamp is increasing over those of `NewV1`. -/
theorem distinct_ids_advancing_clock (o : Generator) (host : Host) (cs : List Call)
    (hmono : ∀ i j, i < j → j < cs.length →
      o.Next (o.nextCalls + i) < o.Next (o.nextCalls + j))
    (hbound : ∀ i, i < cs.length → o.Next (o.nextCalls + i) < 2 ^ 60)
    (i j : Nat) (ci cj : Call) (hij : i < j)
    (hci : cs[i]? = some ci) (hcj : cs[j]? = some cj) :
    ∃ a b, (o.calls host cs).1[i]? = some a ∧ (o.calls host cs).1[j]? = some b ∧
      ((ci = .NewV1 ∨ cj = .NewV1) → a ≠ b) ∧
      (∀ d1 d2, ci = .NewV2 d1 → cj = .NewV2 d2 →
        (d1 % 256 ≠ d2 % 256 ∨
          o.Next (o.nextCalls + i) / 2 ^ 32 ≠ o.Next (o.nextCalls + j) / 2 ^ 32) → a ≠ b) ∧
      timestampField a / 2 ^ 32 ≤ timestampField b / 2 ^ 32 ∧
      (ci = .NewV1 → cj = .NewV1 → timestampField a < timestampField b) := by
  have hj : j < cs.length := by
    obtain ⟨h, _⟩ := List.getElem?_eq_some.mp hcj
    exact h
  have hlt := hmono i j hij hj
  have hbi := hbound i (by omega)
  have hbj := hbound j hj
  have fa := call_fields (Generator.read^[i] o) host ci
  have fb := call_fields (Generator.read^[j] o) host cj
  rw [(iterate_read_Next i o).1, (iterate_read_Next i o).2] at fa
  rw [(iterate_read_Next j o).1, (iterate_read_Next j o).2] at fb
  refine ⟨_, _, calls_getElem host cs o i ci hci, calls_getElem host cs o j cj hcj, ?_, ?_, ?_, ?_⟩
  · intro hv hab
    rw [hab] at fa
    rcases hv with hv | hv
    · subst hv
      cases cj with
      | NewV1 =>
        have h1 := fa.2.2.1 rfl
        have h2 := fb.2.2.1 rfl
        omega
      | NewV2 d =>
        have h1 := fa.1
        have h2 := fb.1
        simp only at h1 h2
        omega
    · subst hv
      cases ci with
      | NewV1 =>
        have h1 := fa.2.2.1 rfl
        have h2 := fb.2.2.1 rfl
        omega
      | NewV2 d =>
        have h1 := fa.1
        have h2 := fb.1
        simp only at h1 h2
        omega
  · intro d1 d2 h1 h2 hd hab
    rw [hab] at fa
    have g1 := fa.2.2.2 d1 h1
    have g2 := fb.2.2.2 d2 h2
    have t1 := fa.2.1
    have t2 := fb.2.1
    omega
  · have t1 := fa.2.1
    have t2 := fb.2.1
    omega
  · intro h1 h2
    have t1 := fa.2.2.1 h1
    have t2 := fb.2.2.1 h2
    omega

/-- C7 as amended, at a concrete input: a `NewV1` and a `NewV2` call on a clock
answering 1000, 1001. -/
theorem distinct_ids_advancing_clock_witness :
    ∃ a b, (sampleFresh.calls {} [.NewV1, .NewV2 DomainUser]).1[0]? = some a ∧
      (sampleFresh.calls {} [.NewV1, .NewV2 DomainUser]).1[1]? = some b ∧ a ≠ b := by
  obtain ⟨a, b, ha, hb, h, _⟩ := distinct_ids_advancing_clock sampleFresh {}
    [.NewV1, .NewV2 DomainUser]
    (fun i j hij hj => by show 1000 + (0 + i) < 1000 + (0 + j); omega)
    (fun i hi => by
      show 1000 + (0 + i) < 2 ^ 60
      have : i < 2 := hi
      omega)
    0 1 .NewV1 (.NewV2 DomainUser) (by decide) rfl rfl
  exact ⟨a, b, ha, hb, h (Or.inl rfl)⟩

/-! ## A clock that never advances -/

/-- With a clock standing at the stored timestamp, i calls of `read` add i to the
sequence (as a `uint16`) and leave timestamp and node as they are. -/
theorem iterate_read_standing (c : Nat) (i : Nat) :
    ∀ o : Generator, (∀ k, o.Next k = c) → o.Store.Timestamp = c →
      (Generator.read^[i] o).Store.Timestamp = c ∧
      (Generator.read^[i] o).Store.Node = o.Store.Node ∧
      (Generator.read^[i] o).Store.Sequence % 2 ^ 16 = (o.Store.Sequence + i) % 2 ^ 16 := by
  induction i with
  | zero => intro o _ ht; exact ⟨ht, rfl, rfl⟩
  | succ i ih =>
    intro o hc ht
    have hr : o.read.Store = Store.mk c ((o.Store.Sequence + 1) % 2 ^ 16) o.Store.Node := by
      rw [read_Store, hc, ht, if_pos (Nat.le_refl c)]
    have h := ih o.read (by rw [(read_Next o).1]; exact hc) (by rw [hr])
    rw [Function.iterate_succ_apply]
    rw [hr] at h
    refine ⟨h.1, h.2.1, ?_⟩
    rw [h.2.2]
    simp only
    omega

/-- The bytes of a `NewV1` identifier outside the clock-sequence field depend only
on the timestamp and the node after `read`. -/
theorem NewV1_outside_clockSeq (o : Generator) :
    o.NewV1.1.take 8 =
      [o.read.Store.Timestamp % 2 ^ 32 / 2 ^ 24 % 256,
       o.read.Store.Timestamp % 2 ^ 32 / 2 ^ 16 % 256,
       o.read.Store.Timestamp % 2 ^ 32 / 2 ^ 8 % 256,
       o.read.Store.Timestamp % 2 ^ 32 % 256,
       o.read.Store.Timestamp / 2 ^ 32 % 2 ^ 16 / 2 ^ 8 % 256,
       o.read.Store.Timestamp / 2 ^ 32 % 2 ^ 16 % 256,
       1 % 16 * 16 + o.read.Store.Timestamp / 2 ^ 48 % 2 ^ 16 / 2 ^ 8 % 256 % 16,
       o.read.Store.Timestamp / 2 ^ 48 % 2 ^ 16 % 256] ∧
    o.NewV1.1.drop 10 = copy (make 6) o.read.Store.Node := by
  rw [NewV1_bytes]
  exact ⟨rfl, rfl⟩

/-- With a clock standing at c, the state from which the call at position m of a
sequence of calls encodes its identifier: timestamp c, the node unchanged, and the
sequence after the first call plus m, as a `uint16`. -/
theorem standing_clock_state (o : Generator) (c m : Nat) (hclock : ∀ k, o.Next k = c) :
    (Generator.read^[m] o).read.Store.Timestamp = c ∧
    (Generator.read^[m] o).read.Store.Node = o.Store.Node ∧
    (Generator.read^[m] o).read.Store.Sequence % 2 ^ 16 =
      (o.read.Store.Sequence + m) % 2 ^ 16 := by
  have e : (Generator.read^[m] o).read = Generator.read^[m] o.read := by
    rw [← Function.iterate_succ_apply' Generator.read m o, Function.iterate_succ_apply]
  have h := iterate_read_standing c m o.read (by rw [(read_Next o).1]; exact hclock)
    (by rw [read_Store, hclock])
  rw [e]
  refine ⟨h.1, ?_, h.2.2⟩
  rw [h.2.1, read_Store]

/-- C8. For every N <= 16384 and every Generator whose clock never advances (`Next`
always answers c), N consecutive `NewV1` calls return N identifiers; any two of
them, at positions i < j, are distinct and agree on every byte outside the
clock-sequence field: bytes 0-7 and bytes 10-15 are the same. -/
theorem standing_clock_distinct (o : Generator) (host : Host) (N c : Nat) (hN : N ≤ 16384)
    (hclock : ∀ k, o.Next k = c) :
    ((o.calls host (List.replicate N .NewV1)).1.length = N) ∧
    ∀ i j, i < j → j < N →
      ∃ a b, (o.calls host (List.replicate N .NewV1)).1[i]? = some a ∧
        (o.calls host (List.replicate N .NewV1)).1[j]? = some b ∧
        a ≠ b ∧ a.take 8 = b.take 8 ∧ a.drop 10 = b.drop 10 := by
  refine ⟨by rw [calls_length, List.length_replicate], fun i j hij hj => ?_⟩
  have hci : (List.replicate N Call.NewV1)[i]? = some Call.NewV1 := by
    rw [List.getElem?_eq_getElem (by rw [List.length_replicate]; omega), List.getElem_replicate]
  have hcj : (List.replicate N Call.NewV1)[j]? = some Call.NewV1 := by
    rw [List.getElem?_eq_getElem (by rw [List.length_replicate]; omega), List.getElem_replicate]
  have si := standing_clock_state o c i hclock
  have sj := standing_clock_state o c j hclock
  refine ⟨_, _, calls_getElem host _ o i _ hci, calls_getElem host _ o j _ hcj, ?_, ?_, ?_⟩
  · intro hab
    have h : clockSeqField (Generator.read^[i] o).NewV1.1 =
        clockSeqField (Generator.read^[j] o).NewV1.1 := congrArg clockSeqField hab
    rw [NewV1_clockSeqField, NewV1_clockSeqField] at h
    have h1 := si.2.2
    have h2 := sj.2.2
    omega
  · show (Generator.read^[i] o).NewV1.1.take 8 = (Generator.read^[j] o).NewV1.1.take 8
    rw [(NewV1_outside_clockSeq _).1, (NewV1_outside_clockSeq _).1, si.1, sj.1]
  · show (Generator.read^[i] o).NewV1.1.drop 10 = (Generator.read^[j] o).NewV1.1.drop 10
    rw [(NewV1_outside_clockSeq _).2, (NewV1_outside_clockSeq _).2, si.2.1, sj.2.1]

/-- C8, at a concrete input: three `NewV1` calls on a clock standing at 1000; the
identifiers at positions 0 and 2 differ and agree outside bytes 8-9. -/
theorem standing_clock_distinct_witness :
    ∃ a b, (({ Next := fun _ => 1000 } : Generator).calls {} (List.replicate 3 .NewV1)).1[0]? = some a ∧
      (({ Next := fun _ => 1000 } : Generator).calls {} (List.replicate 3 .NewV1)).1[2]? = some b ∧
      a ≠ b ∧ a.take 8 = b.take 8 ∧ a.drop 10 = b.drop 10 :=
  (standing_clock_distinct { Next := fun _ => 1000 } {} 3 1000 (by decide) (fun _ => rfl)).2
    0 2 (by decide) (by decide)

/-! ## The byte layout -/

/-- Copying a six-byte node into six zero bytes gives the node. -/
theorem copy_make_six (node : Node) (h : node.length = 6) : copy (make 6) node = node := by
  unfold copy make
  rw [List.length_replicate, List.take_of_length_le (by omega),
    List.drop_of_length_le (by rw [List.length_replicate]; omega), List.append_nil]

/-- C9. For every timestamp, sequence and 6-byte node, `makeUuid`, called as
`NewV1` calls it, writes sixteen bytes laid out big-endian as in the table:
bytes 0-3 are the low 32 bits of the timestamp, bytes 4-5 its bits 32-47, the low
12 bits of bytes 6-7 its bits 48-59, the low 14 bits of bytes 8-9 the low 14 bits
of the sequence, and bytes 10-15 the node in order; bytes 0-9 are bytes. -/
theorem makeUuid_layout (timestamp sequence : Nat) (node : Node) (hnode : node.length = 6) :
    (makeUuid arrayZero (timestamp % 2 ^ 32) (timestamp / 2 ^ 32 % 2 ^ 16)
      (timestamp / 2 ^ 48 % 2 ^ 16) (sequence % 2 ^ 16) node).length = 16 ∧
    (∀ k, k < 10 →
      (makeUuid arrayZero (timestamp % 2 ^ 32) (timestamp / 2 ^ 32 % 2 ^ 16)
        (timestamp / 2 ^ 48 % 2 ^ 16) (sequence % 2 ^ 16) node).getD k 0 < 256) ∧
    (∃ b0 b1 b2 b3 b4 b5 b6 b7 b8 b9 : Nat,
      makeUuid arrayZero (timestamp % 2 ^ 32) (timestamp / 2 ^ 32 % 2 ^ 16)
        (timestamp / 2 ^ 48 % 2 ^ 16) (sequence % 2 ^ 16) node =
        [b0, b1, b2, b3, b4, b5, b6, b7, b8, b9] ++ node ∧
      b0 * 2 ^ 24 + b1 * 2 ^ 16 + b2 * 2 ^ 8 + b3 = timestamp % 2 ^ 32 ∧
      b4 * 2 ^ 8 + b5 = timestamp / 2 ^ 32 % 2 ^ 16 ∧
      (b6 * 2 ^ 8 + b7) % 2 ^ 12 = timestamp / 2 ^ 48 % 2 ^ 12 ∧
      (b8 * 2 ^ 8 + b9) % 2 ^ 14 = sequence % 2 ^ 14) := by
  rw [makeUuid_arrayZero, copy_make_six node hnode]
  refine ⟨?_, ?_, ?_⟩
  · simp only [List.length_append, List.length_cons, List.length_nil, hnode]
  · intro k hk
    have hk' : k = 0 ∨ k = 1 ∨ k = 2 ∨ k = 3 ∨ k = 4 ∨ k = 5 ∨ k = 6 ∨ k = 7 ∨ k = 8 ∨ k = 9 := by
      omega
    rcases hk' with h | h | h | h | h | h | h | h | h | h <;> subst h <;>
      simp only [List.cons_append, List.getD_cons_succ, List.getD_cons_zero] <;> omega
  · refine ⟨_, _, _, _, _, _, _, _, _, _, rfl, ?_, ?_, ?_, ?_⟩ <;> omega

/-- C9, at a concrete input: the timestamp 0x0123456789ABCDE, the sequence 0x1234
and the node 01:02:03:04:05:06. -/
theorem makeUuid_layout_witness :
    ([1, 2, 3, 4, 5, 6] : Node).length = 6 ∧
    (makeUuid arrayZero (0x0123456789ABCDE % 2 ^ 32) (0x0123456789ABCDE / 2 ^ 32 % 2 ^ 16)
      (0x0123456789ABCDE / 2 ^ 48 % 2 ^ 16) (0x1234 % 2 ^ 16) [1, 2, 3, 4, 5, 6]).length = 16 ∧
    makeUuid arrayZero (0x0123456789ABCDE % 2 ^ 32) (0x0123456789ABCDE / 2 ^ 32 % 2 ^ 16)
      (0x0123456789ABCDE / 2 ^ 48 % 2 ^ 16) (0x1234 % 2 ^ 16) [1, 2, 3, 4, 5, 6] =
      [0x78, 0x9A, 0xBC, 0xDE, 0x34, 0x56, 0x00, 0x12, 0x12, 0x34, 1, 2, 3, 4, 5, 6] :=
  ⟨rfl, (makeUuid_layout 0x0123456789ABCDE 0x1234 [1, 2, 3, 4, 5, 6] rfl).1, by decide⟩

/-! ## Round trip -/

/-- C10 (counterexample). `NewV1` on a Generator that holds the sequence 0x4000 and
reads the clock at 1000 encodes the state `(1000, 0x4000, 01:02:03:04:05:06)`; read
back, the identifier gives the sequence 0.  On a clock at 2^60 it encodes the
timestamp 2^60 and gives back the timestamp 0. -/
theorem roundtrip_loses_high_bits :
    (({ Store := { Sequence := 0x4000, Node := [1, 2, 3, 4, 5, 6] }, Next := fun _ => 1000 }
        : Generator).NewV1.2.Store =
      { Timestamp := 1000, Sequence := 0x4000, Node := [1, 2, 3, 4, 5, 6] }) ∧
    (decode ({ Store := { Sequence := 0x4000, Node := [1, 2, 3, 4, 5, 6] }, Next := fun _ => 1000 }
        : Generator).NewV1.1 =
      { Timestamp := 1000, Sequence := 0, Node := [1, 2, 3, 4, 5, 6] }) ∧
    (({ Store := { Node := [1, 2, 3, 4, 5, 6] }, Next := fun _ => 2 ^ 60 }
        : Generator).NewV1.2.Store =
      { Timestamp := 2 ^ 60, Sequence := 0, Node := [1, 2, 3, 4, 5, 6] }) ∧
    (decode ({ Store := { Node := [1, 2, 3, 4, 5, 6] }, Next := fun _ => 2 ^ 60 }
        : Generator).NewV1.1 =
      { Timestamp := 0, Sequence := 0, Node := [1, 2, 3, 4, 5, 6] }) := by
  decide

/-- The node field of the identifier `NewV1` returns is the node, when the node
has six bytes. -/
theorem NewV1_nodeField (o : Generator) (hnode : o.Store.Node.length = 6) :
    nodeField o.NewV1.1 = o.Store.Node := by
  unfold nodeField
  rw [(NewV1_outside_clockSeq o).2, read_Store, copy_make_six _ hnode,
    List.take_of_length_le (by omega)]

/-- The variant field of the identifier `NewV1` returns is binary 10. -/
theorem NewV1_variantField (o : Generator) : variantField o.NewV1.1 = 2 := by
  rw [NewV1_bytes]
  unfold variantField
  simp only [List.cons_append, List.getD_cons_succ, List.getD_cons_zero]
  omega

/-- C10 (as amended). For every state (timestamp, sequence, 6-byte node) that
`NewV1` encodes, the identifier carries version 1 and variant bits 10, and reading
it back through the layout yields the timestamp modulo 2^60, the sequence modulo
2^14 and the node; it yields the very triple that was encoded exactly when the
timestamp is below 2^60 and the sequence below 2^14. -/
theorem roundtrip_low_bits (o : Generator) (hnode : o.Store.Node.length = 6) :
    versionField o.NewV1.1 = 1 ∧ variantField o.NewV1.1 = 2 ∧
    decode o.NewV1.1 =
      { Timestamp := o.NewV1.2.Store.Timestamp % 2 ^ 60
        Sequence := o.NewV1.2.Store.Sequence % 2 ^ 14
        Node := o.NewV1.2.Store.Node } ∧
    (decode o.NewV1.1 = o.NewV1.2.Store ↔
      o.NewV1.2.Store.Timestamp < 2 ^ 60 ∧ o.NewV1.2.Store.Sequence < 2 ^ 14) := by
  have hd : decode o.NewV1.1 =
      { Timestamp := o.NewV1.2.Store.Timestamp % 2 ^ 60
        Sequence := o.NewV1.2.Store.Sequence % 2 ^ 14
        Node := o.NewV1.2.Store.Node } := by
    unfold decode
    rw [NewV1_timestampField, NewV1_clockSeqField, NewV1_nodeField o hnode, NewV1_state,
      read_Store]
  refine ⟨NewV1_versionField o, NewV1_variantField o, hd, ?_⟩
  rw [hd]
  constructor
  · intro h
    have h1 := congrArg Store.Timestamp h
    have h2 := congrArg Store.Sequence h
    simp only at h1 h2
    omega
  · intro h
    have h1 : o.NewV1.2.Store.Timestamp % 2 ^ 60 = o.NewV1.2.Store.Timestamp :=
      Nat.mod_eq_of_lt h.1
    have h2 : o.NewV1.2.Store.Sequence % 2 ^ 14 = o.NewV1.2.Store.Sequence :=
      Nat.mod_eq_of_lt h.2
    rw [h1, h2]

/-- C10 as amended, at a concrete input: the state `(1000, 0x1234,
01:02:03:04:05:06)` is read back as it was encoded. -/
theorem roundtrip_low_bits_witness :
    decode ({ Store := { Sequence := 0x1234, Node := [1, 2, 3, 4, 5, 6] }, Next := fun _ => 1000 }
        : Generator).NewV1.1 =
      { Timestamp := 1000, Sequence := 0x1234, Node := [1, 2, 3, 4, 5, 6] } :=
  ((roundtrip_low_bits
    { Store := { Sequence := 0x1234, Node := [1, 2, 3, 4, 5, 6] }, Next := fun _ => 1000 }
    rfl).2.2.2.2 ⟨by decide, by decide⟩)

/-! ## The worked scenario -/

/-- C11 (counterexample). In the scenario (node `01:02:03:04:05:06`, sequence
0x1234, timestamp 0x0123456789ABCDE) `NewV1` encodes exactly that state, and the
sixteen bytes it returns are not `01 23 45 67 CD EF D1 23 52 34 01 02 03 04 05 06`:
byte 0 is 0x78, the top byte of the low 32 bits of the timestamp. -/
theorem scenario_not_spec_bytes :
    scenarioGenerator.NewV1.2.Store =
      { Timestamp := 0x0123456789ABCDE, Sequence := 0x1234, Node := [1, 2, 3, 4, 5, 6] } ∧
    scenarioGenerator.NewV1.1.getD 0 0 = 0x78 ∧
    scenarioGenerator.NewV1.1 ≠
      [0x01, 0x23, 0x45, 0x67, 0xCD, 0xEF, 0xD1, 0x23, 0x52, 0x34, 1, 2, 3, 4, 5, 6] := by
  decide

/-- C11 (as amended). With node `01:02:03:04:05:06`, sequence 0x1234 and timestamp
0x0123456789ABCDE, the V1 encoding (`makeUuid` as `NewV1` calls it, then version 1
in the high nibble of byte 6 and variant 10 in the top two bits of byte 8) is
exactly `78 9A BC DE 34 56 10 12 92 34 01 02 03 04 05 06`, and this is what `NewV1`
returns in the scenario. -/
theorem scenario_bytes :
    setRFC4122Version
      (makeUuid arrayZero (0x0123456789ABCDE % 2 ^ 32) (0x0123456789ABCDE / 2 ^ 32 % 2 ^ 16)
        (0x0123456789ABCDE / 2 ^ 48 % 2 ^ 16) (0x1234 % 2 ^ 16) [1, 2, 3, 4, 5, 6]) 1 =
      [0x78, 0x9A, 0xBC, 0xDE, 0x34, 0x56, 0x10, 0x12, 0x92, 0x34, 1, 2, 3, 4, 5, 6] ∧
    scenarioGenerator.NewV1.1 =
      [0x78, 0x9A, 0xBC, 0xDE, 0x34, 0x56, 0x10, 0x12, 0x92, 0x34, 1, 2, 3, 4, 5, 6] := by
  decide

/-! ## The DCE-security identifier -/

/-- The builtin `copy` leaves the length of the destination as it is. -/
theorem copy_length (dst src : List Nat) : (copy dst src).length = dst.length := by
  unfold copy
  rw [List.length_append, List.length_take, List.length_drop]
  omega

/-- C12. For every Generator state and every domain, `NewV2` returns 16 bytes;
bytes 0-3 hold, big-endian, the domain-specific id in place of the low 32 bits of
the timestamp (the user id for `DomainUser`, the group id for `DomainGroup`, each
converted to `uint32`, and 0 for any other domain); byte 9 is the raw domain
value; bytes 4-5, the low 12 bits of bytes 6-7 and bytes 10-15 are those `NewV1`
produces from the same state. -/
theorem NewV2_layout (o : Generator) (host : Host) (domain : Nat) :
    (o.NewV2 host domain).1.length = 16 ∧
    (∀ k, k < 4 → (o.NewV2 host domain).1.getD k 0 < 256) ∧
    (domain = DomainUser →
      (o.NewV2 host domain).1.getD 0 0 * 2 ^ 24 + (o.NewV2 host domain).1.getD 1 0 * 2 ^ 16 +
        (o.NewV2 host domain).1.getD 2 0 * 2 ^ 8 + (o.NewV2 host domain).1.getD 3 0 =
        (host.Getuid % 2 ^ 32).toNat) ∧
    (domain = DomainGroup →
      (o.NewV2 host domain).1.getD 0 0 * 2 ^ 24 + (o.NewV2 host domain).1.getD 1 0 * 2 ^ 16 +
        (o.NewV2 host domain).1.getD 2 0 * 2 ^ 8 + (o.NewV2 host domain).1.getD 3 0 =
        (host.Getgid % 2 ^ 32).toNat) ∧
    (domain ≠ DomainUser → domain ≠ DomainGroup →
      (o.NewV2 host domain).1.getD 0 0 * 2 ^ 24 + (o.NewV2 host domain).1.getD 1 0 * 2 ^ 16 +
        (o.NewV2 host domain).1.getD 2 0 * 2 ^ 8 + (o.NewV2 host domain).1.getD 3 0 = 0) ∧
    (o.NewV2 host domain).1.getD 9 0 = domain % 256 ∧
    (domain < 256 → (o.NewV2 host domain).1.getD 9 0 = domain) ∧
    (o.NewV2 host domain).1.getD 4 0 = o.NewV1.1.getD 4 0 ∧
    (o.NewV2 host domain).1.getD 5 0 = o.NewV1.1.getD 5 0 ∧
    ((o.NewV2 host domain).1.getD 6 0 * 2 ^ 8 + (o.NewV2 host domain).1.getD 7 0) % 2 ^ 12 =
      (o.NewV1.1.getD 6 0 * 2 ^ 8 + o.NewV1.1.getD 7 0) % 2 ^ 12 ∧
    (o.NewV2 host domain).1.drop 10 = o.NewV1.1.drop 10 := by
  have hu : (host.Getuid % 2 ^ 32).toNat < 2 ^ 32 := by omega
  have hg : (host.Getgid % 2 ^ 32).toNat < 2 ^ 32 := by omega
  rw [NewV2_bytes o host domain _ rfl, NewV1_bytes]
  simp only [List.cons_append, List.getD_cons_succ, List.getD_cons_zero, List.length_cons,
    List.length_append, List.length_nil, copy_length, make, List.length_replicate, List.drop_succ_cons,
    List.drop_zero, List.nil_append]
  refine ⟨trivial, ?_, ?_, ?_, ?_, trivial, ?_, trivial, trivial, ?_, trivial⟩
  · intro k hk
    have hk' : k = 0 ∨ k = 1 ∨ k = 2 ∨ k = 3 := by omega
    rcases hk' with h | h | h | h <;> subst h <;>
      simp only [List.getD_cons_succ, List.getD_cons_zero] <;> omega
  · intro h
    rw [if_pos h]
    omega
  · intro h
    have h' : ¬ domain = DomainUser := by
      rw [h]; decide
    rw [if_neg h', if_pos h]
    omega
  · intro h1 h2
    rw [if_neg h1, if_neg h2]
    omega
  · intro h
    omega
  · omega

/-! ## The node and the errors of initialization -/

/-- Setting the lowest bit of a byte: the lowest bit is 1, the other bits stay. -/
theorem lor_one (r : Nat) : (r ||| 1) % 2 = 1 ∧ (r ||| 1) / 2 = r / 2 := by
  have h : r ||| 1 = 2 * (r / 2) + 1 := by
    have e := Nat.mul_add_lt_is_or (show 1 < 2 ^ 1 by decide) (r / 2)
    have e0 := Nat.mul_add_lt_is_or (show r % 2 < 2 ^ 1 by omega) (r / 2)
    have hr : r = 2 ^ 1 * (r / 2) + r % 2 := by omega
    have h1 : r % 2 ||| 1 = 1 := by
      rcases Nat.mod_two_eq_zero_or_one r with h | h <;> rw [h] <;> rfl
    calc r ||| 1 = (2 ^ 1 * (r / 2) ||| r % 2) ||| 1 := by rw [← e0, ← hr]
      _ = 2 ^ 1 * (r / 2) ||| (r % 2 ||| 1) := by rw [Nat.lor_assoc]
      _ = 2 ^ 1 * (r / 2) ||| 1 := by rw [h1]
      _ = 2 * (r / 2) + 1 := by rw [← e]
  rw [h]
  omega

/-- Whenever the sequence step of `init` commits, it commits the resolved node. -/
theorem initCommit_Node (o : Generator) (storage : Store) (now : Nat) (node : Node)
    (h : (o.Random o.randomCalls).err = none ∨ (o.Saver.isSome = true ∧ storage.Node = node)) :
    (o.initCommit storage now node).Store.Node = node := by
  unfold Generator.initCommit
  split
  · rename_i hc
    rcases h with h | ⟨h1, h2⟩
    · simp only [h]
    · cases hS : o.Saver with
      | none => simp [hS] at h1
      | some sv => simp [hS, h2] at hc
  · split <;> rfl

/-- When the sequence step of `init` reads `Random` and the read fails, the error
is recorded and the Store is left as it was. -/
theorem initCommit_error (o : Generator) (storage : Store) (now : Nat) (node : Node) (e : Error)
    (h : o.Saver = none ∨ storage.Node ≠ node) (hr : (o.Random o.randomCalls).err = some e) :
    (o.initCommit storage now node).Store = o.Store ∧
    (o.initCommit storage now node).err = some e := by
  have hc : (o.Saver.isNone || !(storage.Node == node)) = true := by
    rcases h with h | h
    · simp [h]
    · simp [h]
  unfold Generator.initCommit
  rw [if_pos hc]
  simp only [hr]
  constructor <;> first | rfl | trivial

/-- C13. At initialization, whenever a state is committed (the `Random` read for
the sequence succeeds, or the persisted state is used and no such read is made):
when `Id` returns a node, that node is committed unchanged; when `Id` returns nil
and `Random` supplies the six bytes `r0 .. r5`, the committed node is
`r0 ||| 1, r1, .., r5`, that is, the lowest bit of the first byte is 1 and every
other bit is as `Random` supplied it. -/
theorem init_node_committed (o : Generator) :
    (∀ node, o.Id = some node →
      ((o.Random o.randomCalls).err = none ∨
        ∃ sv, o.Saver = some sv ∧ sv.Read.2 = none ∧ sv.Read.1.Node = node) →
      o.init.Store.Node = node) ∧
    (∀ r0 r1 r2 r3 r4 r5, o.Id = none →
      (o.Random o.randomCalls).bytes = [r0, r1, r2, r3, r4, r5] →
      (o.Random o.randomCalls).err = none →
      ((o.Random (o.randomCalls + 1)).err = none ∨
        ∃ sv, o.Saver = some sv ∧ sv.Read.2 = none ∧
          sv.Read.1.Node = [r0 ||| 0x01, r1, r2, r3, r4, r5]) →
      o.init.Store.Node = [r0 ||| 0x01, r1, r2, r3, r4, r5] ∧
      (r0 ||| 0x01) % 2 = 1 ∧ (r0 ||| 0x01) / 2 = r0 / 2) := by
  constructor
  · intro node hI h
    rw [init_eq]
    simp only [hI]
    apply initCommit_Node
    rcases h with h | ⟨sv, hS, hR, hN⟩
    · exact Or.inl h
    · right
      simp only [hS, hR]
      exact ⟨rfl, hN⟩
  · intro r0 r1 r2 r3 r4 r5 hI hb he h
    refine ⟨?_, lor_one r0⟩
    rw [init_eq]
    simp only [hI, hb, he]
    have hn : (copy (make 6) [r0, r1, r2, r3, r4, r5]).set 0
        ((copy (make 6) [r0, r1, r2, r3, r4, r5]).getD 0 0 ||| 0x01) =
        [r0 ||| 0x01, r1, r2, r3, r4, r5] := rfl
    rw [hn]
    apply initCommit_Node
    rcases h with h | ⟨sv, hS, hR, hN⟩
    · exact Or.inl h
    · right
      simp only [hS, hR]
      exact ⟨rfl, hN⟩

/-- C13, at a concrete input: no hardware node, `Random` supplying first
`10 20 30 40 50 60` and then `12 34`; the committed node is `11 20 30 40 50 60`. -/
theorem init_node_committed_witness :
    ({ Random := fun k => if k = 0 then { bytes := [0x10, 0x20, 0x30, 0x40, 0x50, 0x60] }
        else { bytes := [0x12, 0x34] } } : Generator).init.Store.Node =
      [0x11, 0x20, 0x30, 0x40, 0x50, 0x60] :=
  ((init_node_committed _).2 0x10 0x20 0x30 0x40 0x50 0x60 rfl rfl rfl (Or.inl rfl)).1

/-- C14. If `Random` returns an error during initialization, either while the
random node is generated (`Id` returned nil) or while the random sequence is
generated (the node is resolved and no Saver is configured, its load failed or the
persisted node differs), then `init`, a total function, returns with the error
recorded, so that the next `Error()` returns exactly that error, and with the Store
exactly as it was before: no timestamp, sequence or node is committed. -/
theorem init_random_error (o : Generator) (e : Error) :
    (o.Id = none → (o.Random o.randomCalls).err = some e →
      o.init.Store = o.Store ∧ o.init.err = some e ∧ o.init.Error.1 = some e) ∧
    (∀ node k,
      ((o.Id = some node ∧ k = o.randomCalls) ∨
        (o.Id = none ∧ (o.Random o.randomCalls).err = none ∧
          node = (copy (make 6) (o.Random o.randomCalls).bytes).set 0
            ((copy (make 6) (o.Random o.randomCalls).bytes).getD 0 0 ||| 0x01) ∧
          k = o.randomCalls + 1)) →
      (o.Saver = none ∨
        ∃ sv, o.Saver = some sv ∧ (sv.Read.2 ≠ none ∨ sv.Read.1.Node ≠ node)) →
      (o.Random k).err = some e →
      o.init.Store = o.Store ∧ o.init.err = some e ∧ o.init.Error.1 = some e) := by
  constructor
  · intro hI he
    have h : o.init.Store = o.Store ∧ o.init.err = some e := by
      rw [init_eq]
      simp only [hI, he]
      constructor <;> first | rfl | trivial
    exact ⟨h.1, h.2, h.2⟩
  · intro node k hnode hpers he
    have h : o.init.Store = o.Store ∧ o.init.err = some e := by
      rw [init_eq]
      rcases hnode with ⟨hI, hk⟩ | ⟨hI, hr1, hn, hk⟩
      · subst hk
        simp only [hI]
        refine initCommit_error _ _ _ _ e ?_ he
        rcases hpers with hS | ⟨sv, hS, hR | hN⟩
        · left; simp only [hS]
        · left
          cases hR2 : sv.Read.2 with
          | none => exact absurd hR2 hR
          | some e' => simp only [hS, hR2, Option.isSome_some, if_true]
        · right; simpa only [hS] using hN
      · subst hk
        simp only [hI, hr1, ← hn]
        refine initCommit_error _ _ _ _ e ?_ he
        rcases hpers with hS | ⟨sv, hS, hR | hN⟩
        · left; simp only [hS]
        · left
          cases hR2 : sv.Read.2 with
          | none => exact absurd hR2 hR
          | some e' => simp only [hS, hR2, Option.isSome_some, if_true]
        · right; simpa only [hS] using hN
    exact ⟨h.1, h.2, h.2⟩

/-- C14, at a concrete input: a hardware node, no Saver, and a `Random` that fails
with `"rng"`; the Store stays empty and `Error()` returns `"rng"`. -/
theorem init_random_error_witness :
    ({ Id := some [1, 2, 3, 4, 5, 6], Random := fun _ => { err := some "rng" } }
        : Generator).init.Store = {} ∧
    ({ Id := some [1, 2, 3, 4, 5, 6], Random := fun _ => { err := some "rng" } }
        : Generator).init.Error.1 = some "rng" := by
  have h := (init_random_error
    { Id := some [1, 2, 3, 4, 5, 6], Random := fun _ => { err := some "rng" } } "rng").2
    [1, 2, 3, 4, 5, 6] 0 (Or.inl ⟨rfl, rfl⟩) (Or.inl rfl) rfl
  exact ⟨h.1, h.2.2⟩

/-! ## A failed load -/

/-- The sequence step of `init` leaves the Saver as it is. -/
theorem initCommit_Saver (o : Generator) (storage : Store) (now : Nat) (node : Node) :
    (o.initCommit storage now node).Saver = o.Saver := by
  unfold Generator.initCommit
  split
  · dsimp only
    split <;> rfl
  · split <;> rfl

/-- Without a Saver the sequence step of `init` does not depend on the loaded
storage: every field of it is overwritten. -/
theorem initCommit_noSaver (o : Generator) (storage : Store) (now : Nat) (node : Node)
    (h : o.Saver = none) :
    o.initCommit storage now node = o.initCommit {} now node := by
  unfold Generator.initCommit
  simp only [h, Option.isNone_none, Bool.true_or, if_true]

/-- After `init` the Saver is the configured one when its load succeeded, and nil
otherwise. -/
theorem init_Saver (o : Generator) :
    o.init.Saver =
      (match o.Saver with
       | some sv => if sv.Read.2.isSome then none else some sv
       | none => none) := by
  rw [init_eq]
  dsimp only
  cases o.Id with
  | some node => rw [initCommit_Saver]
  | none =>
    dsimp only
    cases (o.Random o.randomCalls).err with
    | some e => rfl
    | none => dsimp only; rw [initCommit_Saver]

/-- The call `read` sets no Saver. -/
theorem read_Saver_none (o : Generator) (h : o.Saver = none) : o.read.Saver = none := by
  unfold Generator.read
  simp only [h, Option.isSome_none, Bool.false_eq_true, if_false]

/-- A Generator without Saver has none after any sequence of generation calls. -/
theorem calls_Saver_none (host : Host) (cs : List Call) :
    ∀ o : Generator, o.Saver = none → (o.calls host cs).2.Saver = none := by
  induction cs with
  | nil => intro o h; exact h
  | cons c cs ih =>
    intro o h
    rw [calls_cons_state]
    exact ih o.read (read_Saver_none o h)

/-- C15. If a Saver is configured and its load returns an error at initialization,
then `init` does exactly what it does on the same Generator configured with no
Saver (same clock, same `Id`, same `Random`), whatever state the failed load
returned: the committed state is the same, the Saver is nil afterwards and stays
nil through every later generation call, so that none of them saves, and the
recorded error is the one of the run without Saver, which is the error recorded
before `init` when the `Random` reads succeed. -/
theorem init_load_failure (o : Generator) (sv : Saver) (e : Error)
    (hS : o.Saver = some sv) (hR : sv.Read.2 = some e) :
    o.init = ({ o with Saver := none } : Generator).init ∧
    o.init.Store = ({ o with Saver := none } : Generator).init.Store ∧
    o.init.err = ({ o with Saver := none } : Generator).init.err ∧
    o.init.Saver = none ∧
    (∀ host cs, (o.init.calls host cs).2.Saver = none) ∧
    ((∀ k, (o.Random k).err = none) → o.init.err = o.err) := by
  have key : o.init = ({ o with Saver := none } : Generator).init := by
    rw [init_eq, init_eq]
    simp only [hS, hR, Option.isSome_some, if_true]
    cases o.Id with
    | some node => exact initCommit_noSaver _ _ _ _ rfl
    | none =>
      dsimp only
      cases (o.Random o.randomCalls).err with
      | some e' => rfl
      | none => exact initCommit_noSaver _ _ _ _ rfl
  have hsaver : o.init.Saver = none := by
    rw [init_Saver]
    simp only [hS, hR, Option.isSome_some, if_true]
  refine ⟨key, by rw [key], by rw [key], hsaver, fun host cs => calls_Saver_none host cs _ hsaver,
    fun hr => ?_⟩
  rw [init_eq]
  simp only [hS, hR, Option.isSome_some, if_true]
  cases o.Id with
  | some node =>
    dsimp only
    unfold Generator.initCommit
    simp only [Option.isNone_none, Bool.true_or, if_true, hr]
  | none =>
    simp only [hr]
    unfold Generator.initCommit
    simp only [Option.isNone_none, Bool.true_or, if_true, hr]

/-- C15, at a concrete input: the Saver's load fails with `"disk"` and returns a
state with the right node; the committed state is the one of the run without
Saver, with the fresh sequence 0x1234, and the Saver is gone. -/
theorem init_load_failure_witness :
    ({ sampleFresh with
        Saver := some { Read := ({ Timestamp := 9, Sequence := 7, Node := [1, 2, 3, 4, 5, 6] },
          some "disk") } } : Generator).init.Store =
      { Timestamp := 1000, Sequence := 0x1234, Node := [1, 2, 3, 4, 5, 6] } ∧
    ({ sampleFresh with
        Saver := some { Read := ({ Timestamp := 9, Sequence := 7, Node := [1, 2, 3, 4, 5, 6] },
          some "disk") } } : Generator).init.Saver = none := by
  have h := init_load_failure
    { sampleFresh with
        Saver := some { Read := ({ Timestamp := 9, Sequence := 7, Node := [1, 2, 3, 4, 5, 6] },
          some "disk") } }
    _ "disk" rfl rfl
  exact ⟨by decide, h.2.2.2.1⟩

/-! ## Random identifiers and the error policy -/

/-- C16 (counterexample). On the package as it starts, whose `HandleError` is the
default `runHandleError`, with a `Random` that fails: the first read fails, and
`NewV4` does not return nil, it panics in `runHandleError`, the error recorded. -/
theorem NewV4_default_handler_panics :
    (NewV4 (Package.start { randRead := fun _ => { err := some "rng" } })).1 = .panicked ∧
    (NewV4 (Package.start { randRead := fun _ => { err := some "rng" } })).2.generator.err =
      some "rng" := by
  decide

/-- How `NewV4` ends, case by case: on the first `Random` read, the answer of
`HandleError` and the second read. -/
theorem NewV4_cases (p : Package) :
    ((p.generator.Random p.generator.randomCalls).err = none →
      (NewV4 p).1 = .returned (some (setRFC4122Version
        (copy arrayZero (p.generator.Random p.generator.randomCalls).bytes) 4)) ∧
      (NewV4 p).2.generator.err = none ∧
      (NewV4 p).2.generator.randomCalls = p.generator.randomCalls + 1 ∧
      (NewV4 p).2.generator.handleCalls = p.generator.handleCalls) ∧
    (∀ e1, (p.generator.Random p.generator.randomCalls).err = some e1 →
      (p.generator.HandleError e1 = none →
        (NewV4 p).1 = .panicked ∧
        (NewV4 p).2.generator.err = some e1 ∧
        (NewV4 p).2.generator.randomCalls = p.generator.randomCalls + 1 ∧
        (NewV4 p).2.generator.handleCalls = p.generator.handleCalls + 1) ∧
      (p.generator.HandleError e1 = some false →
        (NewV4 p).1 = .returned none ∧
        (NewV4 p).2.generator.err = some e1 ∧
        (NewV4 p).2.generator.randomCalls = p.generator.randomCalls + 1 ∧
        (NewV4 p).2.generator.handleCalls = p.generator.handleCalls + 1) ∧
      (p.generator.HandleError e1 = some true →
        (p.generator.Random (p.generator.randomCalls + 1)).err = none →
        (NewV4 p).1 = .returned (some (setRFC4122Version
          (copy arrayZero (p.generator.Random (p.generator.randomCalls + 1)).bytes) 4)) ∧
        (NewV4 p).2.generator.err = none ∧
        (NewV4 p).2.generator.randomCalls = p.generator.randomCalls + 2 ∧
        (NewV4 p).2.generator.handleCalls = p.generator.handleCalls + 1) ∧
      (∀ e2, p.generator.HandleError e1 = some true →
        (p.generator.Random (p.generator.randomCalls + 1)).err = some e2 →
        (NewV4 p).1 = .returned none ∧
        (NewV4 p).2.generator.err = some e2 ∧
        (NewV4 p).2.generator.randomCalls = p.generator.randomCalls + 2 ∧
        (NewV4 p).2.generator.handleCalls = p.generator.handleCalls + 1)) := by
  refine ⟨fun h1 => ?_, fun e1 h1 => ⟨fun hh => ?_, fun hh => ?_, fun hh h2 => ?_,
    fun e2 hh h2 => ?_⟩⟩
  · simp [NewV4, v4, h1]
  · simp [NewV4, v4, h1, hh]
  · simp [NewV4, v4, h1, hh]
  · simp [NewV4, v4, h1, hh, h2]
  · simp [NewV4, v4, h1, hh, h2]

/-- C16 (as amended). `NewV4` follows the retry-once policy: it returns a UUID
exactly when the first `Random` read succeeds, or the first read fails,
`HandleError` returns true and the second read succeeds; it returns nil exactly
when the first read fails and `HandleError` returns false, or returns true and the
second read fails too; and it panics, returning nothing, exactly when the first
read fails and `HandleError` panics.  On every run `Random` is read at most twice
and `HandleError` is consulted at most once; whenever nil is returned `Error()`
yields the error of the last failed read, and after a returned UUID it yields
nil. -/
theorem NewV4_retry_once (p : Package) :
    ((∃ u, (NewV4 p).1 = .returned (some u)) ↔
      ((p.generator.Random p.generator.randomCalls).err = none ∨
        ∃ e1, (p.generator.Random p.generator.randomCalls).err = some e1 ∧
          p.generator.HandleError e1 = some true ∧
          (p.generator.Random (p.generator.randomCalls + 1)).err = none)) ∧
    ((NewV4 p).1 = .returned none ↔
      ∃ e1, (p.generator.Random p.generator.randomCalls).err = some e1 ∧
        (p.generator.HandleError e1 = some false ∨
          (p.generator.HandleError e1 = some true ∧
            (p.generator.Random (p.generator.randomCalls + 1)).err ≠ none))) ∧
    ((NewV4 p).1 = .panicked ↔
      ∃ e1, (p.generator.Random p.generator.randomCalls).err = some e1 ∧
        p.generator.HandleError e1 = none) ∧
    (NewV4 p).2.generator.randomCalls ≤ p.generator.randomCalls + 2 ∧
    (NewV4 p).2.generator.handleCalls ≤ p.generator.handleCalls + 1 ∧
    ((NewV4 p).1 = .returned none →
      ∃ e, (NewV4 p).2.generator.Error.1 = some e ∧
        (((p.generator.Random p.generator.randomCalls).err = some e ∧
            p.generator.HandleError e = some false) ∨
          ((p.generator.Random (p.generator.randomCalls + 1)).err = some e ∧
            (NewV4 p).2.generator.randomCalls = p.generator.randomCalls + 2))) ∧
    ((∃ u, (NewV4 p).1 = .returned (some u)) → (NewV4 p).2.generator.Error.1 = none) := by
  have hc := NewV4_cases p
  cases h1 : (p.generator.Random p.generator.randomCalls).err with
  | none =>
    obtain ⟨hres, herr, hrc, hhc⟩ := hc.1 h1
    simp [hres, herr, hrc, hhc, Generator.Error]
  | some e1 =>
    have hc2 := hc.2 e1 h1
    cases hh : p.generator.HandleError e1 with
    | none =>
      obtain ⟨hres, herr, hrc, hhc⟩ := hc2.1 hh
      simp [hres, herr, hrc, hhc, hh, Generator.Error]
    | some b =>
      cases b with
      | false =>
        obtain ⟨hres, herr, hrc, hhc⟩ := hc2.2.1 hh
        simp [hres, herr, hrc, hhc, hh, Generator.Error]
      | true =>
        cases h2 : (p.generator.Random (p.generator.randomCalls + 1)).err with
        | none =>
          obtain ⟨hres, herr, hrc, hhc⟩ := hc2.2.2.1 hh h2
          simp [hres, herr, hrc, hhc, hh, Generator.Error]
        | some e2 =>
          obtain ⟨hres, herr, hrc, hhc⟩ := hc2.2.2.2 e2 hh h2
          simp [hres, herr, hrc, hhc, hh, Generator.Error]

/-! ## The error accessor -/

/-- C17. `Error` is read-and-clear: for every Generator it returns the recorded
error (nil when none is recorded), leaves the recorded error nil, so that an
immediately following `Error()` returns nil, and changes nothing else: timestamp,
sequence, node and Saver, and every other field, are as before. -/
theorem Error_read_and_clear (o : Generator) :
    o.Error.1 = o.err ∧
    o.Error.2.err = none ∧
    o.Error.2.Error.1 = none ∧
    o.Error.2.Store = o.Store ∧
    o.Error.2.Saver = o.Saver ∧
    o.Error.2 = { o with err := none } ∧
    (o.err = none → o.Error.1 = none ∧ o.Error.2 = o) := by
  refine ⟨rfl, rfl, rfl, rfl, rfl, rfl, fun h => ⟨h, ?_⟩⟩
  show ({ o with err := none } : Generator) = o
  rw [← h]

/-! ## Saving the state -/

/-- C18. When a Saver is configured, a generation call (`NewV1` or `NewV2`)
invokes `Save` exactly once, after the state update and with the updated state:
the log of the Saver grows by one entry, the Store after the call, whose timestamp
is the new clock reading and whose sequence is the possibly incremented one.  When
no Saver is configured, none is set afterwards: nothing is saved. -/
theorem call_saves_once (o : Generator) (host : Host) (c : Call) :
    (∀ sv, o.Saver = some sv →
      (o.call host c).2.Saver = some { sv with saved := sv.saved ++ [(o.call host c).2.Store] } ∧
      (o.call host c).2.Store =
        { Timestamp := o.Next o.nextCalls
          Sequence :=
            if o.Next o.nextCalls ≤ o.Store.Timestamp then (o.Store.Sequence + 1) % 2 ^ 16
            else o.Store.Sequence
          Node := o.Store.Node }) ∧
    (o.Saver = none → (o.call host c).2.Saver = none) := by
  rw [call_state]
  refine ⟨fun sv h => ⟨?_, read_Store o⟩, read_Saver_none o⟩
  unfold Generator.read Generator.save
  simp only [h, Option.isSome_some, if_true]
  rfl

/-- C18, at a concrete input: a Saver with an empty log, the sequence 7 and a clock
standing at the stored timestamp; after `NewV1` the log holds the updated state. -/
theorem call_saves_once_witness :
    (({ Store := { Timestamp := 1000, Sequence := 7 }, Next := fun _ => 1000, Saver := some {} }
        : Generator).call {} .NewV1).2.Saver =
      some { saved := [{ Timestamp := 1000, Sequence := 8, Node := [] }] } :=
  ((call_saves_once
    { Store := { Timestamp := 1000, Sequence := 7 }, Next := fun _ => 1000, Saver := some {} }
    {} .NewV1).1 {} rfl).1

/-! ## Registering the default generator -/

/-- C19, on the code. On the package as it starts, the first `Init` returns with no
error and the second `Init` does not return: it panics, where the doc comment of
`RegisterGenerator` says that a subsequent call has no effect. -/
theorem second_Init_panics :
    (Init {} (Package.start {})).1 = .returned none ∧
    (Init {} (Init {} (Package.start {})).2).1 = .panicked := by
  decide

/-- What `RegisterGenerator` (and `Init`, which calls it) does on every package
state: a call made while the package-level `once` is unused returns, leaves `once`
fired and installs the new, initialized generator; every call after that neither
replaces nor re-initializes the default generator, the package is left exactly as
it was, and the call does not return but panics. -/
theorem RegisterGenerator_once (d : Defaults) (p : Package) (config : GeneratorConfig) :
    (p.once = false →
      (∃ e, (RegisterGenerator d p config).1 = .returned e) ∧
      (RegisterGenerator d p config).2.once = true ∧
      (RegisterGenerator d p config).2.generator =
        (((newGenerator d config).Do Generator.init).Error).2) ∧
    (p.once = true →
      RegisterGenerator d p config = (.panicked, p) ∧ Init d p = (.panicked, p)) ∧
    (∀ config2,
      RegisterGenerator d (RegisterGenerator d p config).2 config2 =
        (.panicked, (RegisterGenerator d p config).2)) := by
  have h1 : p.once = false →
      (∃ e, (RegisterGenerator d p config).1 = .returned e) ∧
      (RegisterGenerator d p config).2.once = true ∧
      (RegisterGenerator d p config).2.generator =
        (((newGenerator d config).Do Generator.init).Error).2 := by
    intro h
    unfold RegisterGenerator
    simp only [h, Bool.false_eq_true, if_false]
    exact ⟨⟨_, rfl⟩, trivial, trivial⟩
  have h2 : ∀ (q : Package) (cfg : GeneratorConfig), q.once = true →
      RegisterGenerator d q cfg = (.panicked, q) := by
    intro q cfg h
    unfold RegisterGenerator
    simp only [h, if_true]
  refine ⟨h1, fun h => ⟨h2 p config h, h2 p {} h⟩, fun config2 => h2 _ _ ?_⟩
  cases h : p.once with
  | false => exact (h1 h).2.1
  | true => rw [h2 p config h]; exact h

/-! ## The pattern on the documented shapes -/

/-- An optional item before `K`: the outcomes with the item, then those without. -/
theorem run_cat_opt (r K : Regexp) (inp : List Char) :
    (Regexp.cat (.opt r) K).run inp = (Regexp.cat r K).run inp ++ K.run inp := by
  simp only [Regexp.run, List.flatMap_append, List.flatMap_cons, List.flatMap_nil,
    List.append_nil, List.nil_append]
  congr 1
  exact List.map_id' _

/-- A literal before `K`, on an input that starts with it. -/
theorem run_cat_lit (l : List Char) (K : Regexp) (rest : List Char) :
    (Regexp.cat (.lit l) K).run (l ++ rest) = K.run rest := by
  have h : l.isPrefixOf (l ++ rest) = true := by
    rw [List.isPrefixOf_iff_prefix]; exact List.prefix_append l rest
  simp only [Regexp.run, h, if_true, List.flatMap_cons, List.flatMap_nil, List.append_nil,
    List.drop_left, List.nil_append]
  exact List.map_id' _

/-- A literal before `K`, on an input that does not start with it: no outcome. -/
theorem run_cat_lit_fail (l : List Char) (K : Regexp) (inp : List Char)
    (h : l.isPrefixOf inp = false) : (Regexp.cat (.lit l) K).run inp = [] := by
  simp [Regexp.run, h]

/-- A character class before `K`, on an input whose first character is in it. -/
theorem run_cat_cls (p : Char → Bool) (K : Regexp) (c : Char) (rest : List Char) (h : p c = true) :
    (Regexp.cat (.cls p) K).run (c :: rest) = K.run rest := by
  simp only [Regexp.run, h, if_true, List.flatMap_cons, List.flatMap_nil, List.append_nil,
    List.nil_append]
  exact List.map_id' _

/-- A character class before `K`, on an input whose first character is not in it:
no outcome. -/
theorem run_cat_cls_fail (p : Char → Bool) (K : Regexp) (c : Char) (rest : List Char)
    (h : p c = false) : (Regexp.cat (.cls p) K).run (c :: rest) = [] := by
  simp [Regexp.run, h]

/-- A character class before `K`, on the empty input: no outcome. -/
theorem run_cat_cls_nil (p : Char → Bool) (K : Regexp) :
    (Regexp.cat (.cls p) K).run [] = [] := by
  simp [Regexp.run]

/-- A character class on an input whose first character is in it. -/
theorem run_cls (p : Char → Bool) (c : Char) (rest : List Char) (h : p c = true) :
    (Regexp.cls p).run (c :: rest) = [(rest, [])] := by
  simp [Regexp.run, h]

/-- The class repeated n times, on n characters of the class: one outcome, the
characters consumed. -/
theorem repeatRun_cls (p : Char → Bool) (rest : List Char) :
    ∀ (n : Nat) (g : List Char), g.length = n → (∀ c ∈ g, p c = true) →
      repeatRun (Regexp.cls p).run n (g ++ rest) = [(rest, [])] := by
  intro n
  induction n with
  | zero =>
    intro g hl _
    have : g = [] := List.length_eq_zero.mp hl
    subst this
    rfl
  | succ n ih =>
    intro g hl hp
    cases g with
    | nil => simp at hl
    | cons c g =>
      have hc : p c = true := hp c (List.mem_cons_self c g)
      have hg := ih g (by simpa using hl) (fun x hx => hp x (List.mem_cons_of_mem c hx))
      rw [List.cons_append, repeatRun, run_cls p c _ hc]
      simp only [List.flatMap_cons, List.flatMap_nil, List.append_nil, hg, List.map_cons,
        List.map_nil, List.nil_append]

/-- What a match consumed, recovered from what it left. -/
theorem take_length_sub (g rest : List Char) :
    (g ++ rest).take ((g ++ rest).length - rest.length) = g := by
  rw [List.length_append, Nat.add_sub_cancel, List.take_left]

/-- A group of n characters of a class before `K`, on an input that starts with n
characters of the class. -/
theorem run_cat_grp_rep (i n : Nat) (p : Char → Bool) (K : Regexp) (g rest : List Char)
    (hl : g.length = n) (hp : ∀ c ∈ g, p c = true) :
    (Regexp.cat (.grp i (.rep n (.cls p))) K).run (g ++ rest) =
      (K.run rest).map fun b => (b.1, (i, g) :: b.2) := by
  have h : (Regexp.grp i (.rep n (.cls p))).run (g ++ rest) = [(rest, [(i, g)])] := by
    rw [Regexp.run, Regexp.run, repeatRun_cls p rest n g hl hp]
    simp only [List.map_cons, List.map_nil, take_length_sub]
  rw [Regexp.run, h]
  simp only [List.flatMap_cons, List.flatMap_nil, List.append_nil, List.singleton_append]

/-- A group of characters of a class before `K`, on an input whose first character
is not in the class: no outcome. -/
theorem run_cat_grp_rep_fail (i n : Nat) (p : Char → Bool) (K : Regexp) (c : Char)
    (rest : List Char) (hc : p c = false) :
    (Regexp.cat (.grp i (.rep (n + 1) (.cls p))) K).run (c :: rest) = [] := by
  have h : (Regexp.cls p).run (c :: rest) = [] := by simp [Regexp.run, hc]
  have h2 : (Regexp.grp i (.rep (n + 1) (.cls p))).run (c :: rest) = [] := by
    rw [Regexp.run, Regexp.run, repeatRun, h]
    rfl
  rw [Regexp.run, h2]
  rfl

/-- A group made of one character of a class and n of another, before `K`. -/
theorem run_cat_grp_cls_rep (i n : Nat) (q p : Char → Bool) (K : Regexp) (c : Char)
    (g rest : List Char) (hq : q c = true) (hl : g.length = n) (hp : ∀ x ∈ g, p x = true) :
    (Regexp.cat (.grp i (.cat (.cls q) (.rep n (.cls p)))) K).run (c :: (g ++ rest)) =
      (K.run rest).map fun b => (b.1, (i, c :: g) :: b.2) := by
  have h0 : (Regexp.cat (.cls q) (.rep n (.cls p))).run (c :: (g ++ rest)) = [(rest, [])] := by
    rw [run_cat_cls q _ c _ hq, Regexp.run, repeatRun_cls p rest n g hl hp]
  have h : (Regexp.grp i (.cat (.cls q) (.rep n (.cls p)))).run (c :: (g ++ rest)) =
      [(rest, [(i, c :: g)])] := by
    rw [Regexp.run, h0]
    have e := take_length_sub (c :: g) rest
    rw [List.cons_append] at e
    simp only [List.map_cons, List.map_nil, e]
  rw [Regexp.run, h]
  simp only [List.flatMap_cons, List.flatMap_nil, List.append_nil, List.singleton_append]

/-- A group that starts with a character class, before `K`, on an input whose first
character is not in it: no outcome. -/
theorem run_cat_grp_cls_rep_fail (i n : Nat) (q p : Char → Bool) (K : Regexp) (c : Char)
    (rest : List Char) (hq : q c = false) :
    (Regexp.cat (.grp i (.cat (.cls q) (.rep n (.cls p)))) K).run (c :: rest) = [] := by
  have h0 : (Regexp.cat (.cls q) (.rep n (.cls p))).run (c :: rest) = [] :=
    run_cat_cls_fail q _ c rest hq
  have h : (Regexp.grp i (.cat (.cls q) (.rep n (.cls p)))).run (c :: rest) = [] := by
    rw [Regexp.run, h0]
    rfl
  rw [Regexp.run, h]
  rfl

/-- An optional hyphen before a group: whether the hyphen is written or not, the
outcomes are those of the group on what follows. -/
theorem run_cat_opt_hyphen (G K : Regexp) (d : Bool) (inp : List Char)
    (X : List (List Char × Captures)) (hnp : ['-'].isPrefixOf inp = false)
    (hok : (Regexp.cat G K).run inp = X)
    (hfail : (Regexp.cat G K).run ('-' :: inp) = []) :
    (Regexp.cat (.opt (.lit ['-'])) (.cat G K)).run ((if d then ['-'] else []) ++ inp) = X := by
  rw [run_cat_opt]
  cases d with
  | true =>
    simp only [if_true]
    rw [run_cat_lit ['-'] _ inp, hok]
    show X ++ (Regexp.cat G K).run ('-' :: inp) = X
    rw [hfail, List.append_nil]
  | false =>
    simp only [Bool.false_eq_true, if_false, List.nil_append]
    rw [run_cat_lit_fail ['-'] _ inp hnp, hok, List.nil_append]

/-- A string that starts with another character than the hyphen does not start
with a hyphen. -/
theorem hyphen_not_first (c : Char) (rest : List Char) (hc : c ≠ '-') :
    ['-'].isPrefixOf (c :: rest) = false := by
  have : ('-' == c) = false := by
    rw [beq_eq_false_iff_ne]; exact fun h => hc h.symm
  simp [List.isPrefixOf, this]

/-- A group that holds a literal, before `K`, on an input that starts with it. -/
theorem run_cat_grp_lit (i : Nat) (l : List Char) (K : Regexp) (rest : List Char) :
    (Regexp.cat (.grp i (.lit l)) K).run (l ++ rest) =
      (K.run rest).map fun b => (b.1, (i, l) :: b.2) := by
  have hp : l.isPrefixOf (l ++ rest) = true := by
    rw [List.isPrefixOf_iff_prefix]; exact List.prefix_append l rest
  have h : (Regexp.grp i (.lit l)).run (l ++ rest) = [(rest, [(i, l)])] := by
    rw [Regexp.run, Regexp.run, if_pos hp]
    simp only [List.map_cons, List.map_nil, List.drop_left, take_length_sub]
  rw [Regexp.run, h]
  simp only [List.flatMap_cons, List.flatMap_nil, List.append_nil, List.singleton_append]

/-- A group that holds a literal, before `K`, on an input that does not start with
it: no outcome. -/
theorem run_cat_grp_lit_fail (i : Nat) (l : List Char) (K : Regexp) (inp : List Char)
    (hp : l.isPrefixOf inp = false) :
    (Regexp.cat (.grp i (.lit l)) K).run inp = [] := by
  have h : (Regexp.grp i (.lit l)).run inp = [] := by
    rw [Regexp.run, Regexp.run]
    simp [hp]
  rw [Regexp.run, h]
  rfl

/-! ### Facts on the characters -/

/-- A hexadecimal digit is not the hyphen. -/
theorem xdigit_ne_hyphen (c : Char) (h : isXDigit c = true) : c ≠ '-' := by
  intro e; subst e; exact absurd h (by decide)

/-- A hexadecimal digit is not the letter `u`. -/
theorem xdigit_ne_u (c : Char) (h : isXDigit c = true) : c ≠ 'u' := by
  intro e; subst e; exact absurd h (by decide)

/-- A hexadecimal digit is no opening bracket. -/
theorem xdigit_not_open (c : Char) (h : isXDigit c = true) :
    (c == '{' || c == '(' || c == '[') = false := by
  cases hb : (c == '{' || c == '(' || c == '[') with
  | false => rfl
  | true =>
    simp only [Bool.or_eq_true, beq_iff_eq] at hb
    rcases hb with (e | e) | e <;> subst e <;> exact absurd h (by decide)

/-- An opening bracket is neither a hexadecimal digit nor the letter `u`. -/
theorem open_not_xdigit (b : Char) (h : (b == '{' || b == '(' || b == '[') = true) :
    isXDigit b = false ∧ b ≠ 'u' := by
  simp only [Bool.or_eq_true, beq_iff_eq] at h
  rcases h with (e | e) | e <;> subst e <;> exact ⟨by decide, by decide⟩

/-- A closing bracket is no hexadecimal digit. -/
theorem close_not_xdigit (b : Char) (h : (b == ']' || b == '}' || b == ')') = true) :
    isXDigit b = false := by
  simp only [Bool.or_eq_true, beq_iff_eq] at h
  rcases h with (e | e) | e <;> subst e <;> decide

/-- A digit from 1 to 5 is not the hyphen. -/
theorem version_ne_hyphen (c : Char) (h : (decide (49 ≤ c.toNat) && decide (c.toNat ≤ 53)) = true) :
    c ≠ '-' := by
  intro e; subst e; exact absurd h (by decide)

/-- The end of the pattern, an optional closing bracket and the end of the text. -/
theorem run_close (cb : Option Char)
    (hcb : ∀ b, cb = some b → (b == ']' || b == '}' || b == ')') = true) :
    (Regexp.cat (.opt (.cls fun c => c == ']' || c == '}' || c == ')')) .eot).run cb.toList =
      [([], [])] := by
  rw [run_cat_opt]
  cases cb with
  | none =>
    rw [Option.toList, run_cat_cls_nil]
    rfl
  | some b =>
    rw [Option.toList, run_cat_cls _ _ b [] (hcb b rfl)]
    rfl

/-- An optional hyphen before a group, as a rewriting rule. -/
theorem run_cat_opt_hyphen_eq (G K : Regexp) (d : Bool) (inp : List Char)
    (hnp : ['-'].isPrefixOf inp = false)
    (hfail : (Regexp.cat G K).run ('-' :: inp) = []) :
    (Regexp.cat (.opt (.lit ['-'])) (.cat G K)).run ((if d then ['-'] else []) ++ inp) =
      (Regexp.cat G K).run inp :=
  run_cat_opt_hyphen G K d inp _ hnp rfl hfail

/-- An optional character of a class before a group of another class: on a
character of neither class there is no outcome. -/
theorem run_cat_opt_cls_grp_fail (p q : Char → Bool) (i n : Nat) (K : Regexp) (c : Char)
    (rest : List Char) (hp : p c = false) (hq : q c = false) :
    (Regexp.cat (.opt (.cls p)) (.cat (.grp i (.rep (n + 1) (.cls q))) K)).run (c :: rest) = [] := by
  rw [run_cat_opt, run_cat_cls_fail p _ c rest hp, run_cat_grp_rep_fail i n q K c rest hq]
  rfl

/-- An optional character of a class before a group of another class, as a
rewriting rule: whether the character is written or not, the outcomes are those of
the group on what follows. -/
theorem run_cat_opt_cls_eq (p q : Char → Bool) (i n : Nat) (K : Regexp) (ob : Option Char)
    (c : Char) (rest : List Char)
    (hob : ∀ b, ob = some b → p b = true ∧ q b = false) (hc : p c = false) :
    (Regexp.cat (.opt (.cls p)) (.cat (.grp i (.rep (n + 1) (.cls q))) K)).run
        (ob.toList ++ c :: rest) =
      (Regexp.cat (.grp i (.rep (n + 1) (.cls q))) K).run (c :: rest) := by
  rw [run_cat_opt]
  cases ob with
  | none =>
    rw [Option.toList, List.nil_append, run_cat_cls_fail p _ c rest hc, List.nil_append]
  | some b =>
    have hb := hob b rfl
    show (Regexp.cat (.cls p) _).run (b :: c :: rest) ++ _ = _
    rw [run_cat_cls p _ b _ hb.1]
    show _ ++ (Regexp.cat (.grp i (.rep (n + 1) (.cls q))) K).run (b :: c :: rest) = _
    rw [run_cat_grp_rep_fail i n q K b _ hb.2, List.append_nil]

/-- The outcomes of the pattern on a string of the documented shape: one outcome,
the whole string is consumed and groups 2 to 6 are the five groups of digits. -/
theorem run_hexPattern (pre : Bool) (ob cb : Option Char) (d1 d2 d3 d4 : Bool)
    (c2 c3 c4 c5 c6 : Char) (t2 t3 t4 t5 t6 : List Char)
    (hob : ∀ b, ob = some b → (b == '{' || b == '(' || b == '[') = true)
    (hcb : ∀ b, cb = some b → (b == ']' || b == '}' || b == ')') = true)
    (h2 : (c2 :: t2).length = 8) (x2 : ∀ c ∈ c2 :: t2, isXDigit c = true)
    (h3 : (c3 :: t3).length = 4) (x3 : ∀ c ∈ c3 :: t3, isXDigit c = true)
    (h4 : t4.length = 3) (x4 : ∀ c ∈ t4, isXDigit c = true)
    (v4 : (decide (49 ≤ c4.toNat) && decide (c4.toNat ≤ 53)) = true)
    (h5 : (c5 :: t5).length = 4) (x5 : ∀ c ∈ c5 :: t5, isXDigit c = true)
    (h6 : (c6 :: t6).length = 12) (x6 : ∀ c ∈ c6 :: t6, isXDigit c = true) :
    hexPattern.run ((if pre then "urn:uuid:".data else []) ++ (ob.toList ++ ((c2 :: t2) ++
      ((if d1 then ['-'] else []) ++ ((c3 :: t3) ++ ((if d2 then ['-'] else []) ++ (c4 :: (t4 ++
      ((if d3 then ['-'] else []) ++ ((c5 :: t5) ++ ((if d4 then ['-'] else []) ++
      ((c6 :: t6) ++ cb.toList)))))))))))) =
    [([], (if pre then [(1, "urn:uuid:".data)] else []) ++
      [(2, c2 :: t2), (3, c3 :: t3), (4, c4 :: t4), (5, c5 :: t5), (6, c6 :: t6)])] := by
  have hx2 := x2 c2 (List.mem_cons_self _ _)
  have hx3 := x3 c3 (List.mem_cons_self _ _)
  have hx5 := x5 c5 (List.mem_cons_self _ _)
  have hx6 := x6 c6 (List.mem_cons_self _ _)
  have hob' : ∀ b, ob = some b →
      (b == '{' || b == '(' || b == '[') = true ∧ isXDigit b = false :=
    fun b hb => ⟨hob b hb, (open_not_xdigit b (hob b hb)).1⟩
  -- what follows the prefix
  have tail : ∀ S, S = ob.toList ++ ((c2 :: t2) ++
      ((if d1 then ['-'] else []) ++ ((c3 :: t3) ++ ((if d2 then ['-'] else []) ++ (c4 :: (t4 ++
      ((if d3 then ['-'] else []) ++ ((c5 :: t5) ++ ((if d4 then ['-'] else []) ++
      ((c6 :: t6) ++ cb.toList)))))))))) →
      (Regexp.cat (.opt (.cls fun c => c == '{' || c == '(' || c == '['))
        (.cat (.grp 2 (.rep 8 (.cls isXDigit)))
        (.cat (.opt (.lit ['-']))
        (.cat (.grp 3 (.rep 4 (.cls isXDigit)))
        (.cat (.opt (.lit ['-']))
        (.cat (.grp 4 (.cat (.cls fun c => 49 ≤ c.toNat && c.toNat ≤ 53) (.rep 3 (.cls isXDigit))))
        (.cat (.opt (.lit ['-']))
        (.cat (.grp 5 (.rep 4 (.cls isXDigit)))
        (.cat (.opt (.lit ['-']))
        (.cat (.grp 6 (.rep 12 (.cls isXDigit)))
        (.cat (.opt (.cls fun c => c == ']' || c == '}' || c == ')'))
        .eot))))))))))).run S =
      [([], [(2, c2 :: t2), (3, c3 :: t3), (4, c4 :: t4), (5, c5 :: t5), (6, c6 :: t6)])] := by
    intro S hS
    subst hS
    rw [List.cons_append c2, run_cat_opt_cls_eq _ isXDigit 2 7 _ ob c2 _ hob'
      (xdigit_not_open c2 hx2)]
    rw [← List.cons_append c2, run_cat_grp_rep 2 8 isXDigit _ (c2 :: t2) _ h2 x2]
    rw [List.cons_append c3, run_cat_opt_hyphen_eq _ _ d1 _
      (hyphen_not_first c3 _ (xdigit_ne_hyphen c3 hx3))
      (run_cat_grp_rep_fail 3 3 isXDigit _ '-' _ (by decide))]
    rw [← List.cons_append c3, run_cat_grp_rep 3 4 isXDigit _ (c3 :: t3) _ h3 x3]
    rw [run_cat_opt_hyphen_eq _ _ d2 _
      (hyphen_not_first c4 _ (version_ne_hyphen c4 v4))
      (run_cat_grp_cls_rep_fail 4 3 _ isXDigit _ '-' _ (by decide))]
    rw [run_cat_grp_cls_rep 4 3 _ isXDigit _ c4 t4 _ v4 h4 x4]
    rw [List.cons_append c5, run_cat_opt_hyphen_eq _ _ d3 _
      (hyphen_not_first c5 _ (xdigit_ne_hyphen c5 hx5))
      (run_cat_grp_rep_fail 5 3 isXDigit _ '-' _ (by decide))]
    rw [← List.cons_append c5, run_cat_grp_rep 5 4 isXDigit _ (c5 :: t5) _ h5 x5]
    rw [List.cons_append c6, run_cat_opt_hyphen_eq _ _ d4 _
      (hyphen_not_first c6 _ (xdigit_ne_hyphen c6 hx6))
      (run_cat_grp_rep_fail 6 11 isXDigit _ '-' _ (by decide))]
    rw [← List.cons_append c6, run_cat_grp_rep 6 12 isXDigit _ (c6 :: t6) _ h6 x6]
    rw [run_close cb hcb]
    rfl
  unfold hexPattern
  rw [run_cat_opt]
  cases pre with
  | true =>
    simp only [if_true]
    rw [run_cat_grp_lit 1 "urn:uuid:".data, tail _ rfl]
    have hu : "urn:uuid:".data = 'u' :: "rn:uuid:".data := rfl
    rw [hu, List.cons_append, run_cat_opt_cls_grp_fail _ isXDigit 2 7 _ 'u' _ (by decide) (by decide)]
    rfl
  | false =>
    simp only [Bool.false_eq_true, if_false, List.nil_append]
    rw [tail _ rfl, run_cat_grp_lit_fail, List.nil_append]
    cases ob with
    | none =>
      have hne : ('u' == c2) = false := by
        rw [beq_eq_false_iff_ne]; exact fun h => xdigit_ne_u c2 hx2 h.symm
      simp [Option.toList, List.isPrefixOf, hne]
    | some b =>
      have hne : ('u' == b) = false := by
        rw [beq_eq_false_iff_ne]; exact fun h => (open_not_xdigit b (hob b rfl)).2 h.symm
      simp [Option.toList, List.isPrefixOf, hne]

/-! ### Decoding the digits -/

/-- A hexadecimal digit has a value, below 16. -/
theorem fromHexChar_xdigit (c : Char) (h : isXDigit c = true) :
    ∃ v, fromHexChar c = some v ∧ v < 16 := by
  unfold isXDigit at h
  simp only [Bool.or_eq_true, Bool.and_eq_true, decide_eq_true_eq] at h
  unfold fromHexChar
  rcases h with (h | h) | h
  · rw [if_pos h]; exact ⟨_, rfl, by omega⟩
  · have h1 : ¬ (48 ≤ c.toNat ∧ c.toNat ≤ 57) := by omega
    rw [if_neg h1, if_pos h]; exact ⟨_, rfl, by omega⟩
  · have h1 : ¬ (48 ≤ c.toNat ∧ c.toNat ≤ 57) := by omega
    have h2 : ¬ (97 ≤ c.toNat ∧ c.toNat ≤ 102) := by omega
    rw [if_neg h1, if_neg h2, if_pos h]; exact ⟨_, rfl, by omega⟩

/-- Decoding an even number of hexadecimal digits succeeds and gives, byte by
byte, sixteen times the value of the first digit of the pair plus the value of the
second. -/
theorem hexDecodeString_xdigits :
    ∀ (n : Nat) (h : List Char), h.length = 2 * n → (∀ c ∈ h, isXDigit c = true) →
      ∃ bytes, hexDecodeString h = some bytes ∧ bytes.length = n ∧
        ∀ i, i < n → ∃ a b x y, h[2 * i]? = some a ∧ h[2 * i + 1]? = some b ∧
          fromHexChar a = some x ∧ fromHexChar b = some y ∧ x < 16 ∧ y < 16 ∧
          bytes[i]? = some (x * 16 + y) := by
  intro n
  induction n with
  | zero =>
    intro h hl _
    have : h = [] := List.length_eq_zero.mp hl
    subst this
    exact ⟨[], rfl, rfl, fun i hi => absurd hi (Nat.not_lt_zero i)⟩
  | succ n ih =>
    intro h hl hx
    match h, hl, hx with
    | [], hl, _ => simp at hl
    | [_], hl, _ => simp at hl; omega
    | a :: b :: rest, hl, hx =>
      obtain ⟨x, hxa, hx16⟩ := fromHexChar_xdigit a (hx a (by simp))
      obtain ⟨y, hyb, hy16⟩ := fromHexChar_xdigit b (hx b (by simp))
      obtain ⟨bytes, hb, hbl, hbi⟩ := ih rest (by simp at hl; omega)
        (fun c hc => hx c (by simp [hc]))
      refine ⟨(x * 16 + y) :: bytes, ?_, by simp [hbl], ?_⟩
      · simp only [hexDecodeString, hxa, hyb, hb]
      · intro i hi
        cases i with
        | zero => exact ⟨a, b, x, y, by simp, by simp, hxa, hyb, hx16, hy16, by simp⟩
        | succ i =>
          obtain ⟨a', b', x', y', h1, h2, h3, h4, h5, h6, h7⟩ := hbi i (by omega)
          refine ⟨a', b', x', y', ?_, ?_, h3, h4, h5, h6, ?_⟩
          · have e : 2 * (i + 1) = (2 * i + 1) + 1 := by omega
            rw [e, List.getElem?_cons_succ, List.getElem?_cons_succ]; exact h1
          · have e : 2 * (i + 1) + 1 = (2 * i + 1 + 1) + 1 := by omega
            rw [e, List.getElem?_cons_succ, List.getElem?_cons_succ]; exact h2
          · rw [List.getElem?_cons_succ]; exact h7

/-- The function `Parse` on a string of the documented shape, given by its five
groups of digits. -/
theorem Parse_groups (pre : Bool) (ob cb : Option Char) (d1 d2 d3 d4 : Bool)
    (c2 c3 c4 c5 c6 : Char) (t2 t3 t4 t5 t6 : List Char) (bytes : List Nat)
    (hob : ∀ b, ob = some b → (b == '{' || b == '(' || b == '[') = true)
    (hcb : ∀ b, cb = some b → (b == ']' || b == '}' || b == ')') = true)
    (h2 : (c2 :: t2).length = 8) (x2 : ∀ c ∈ c2 :: t2, isXDigit c = true)
    (h3 : (c3 :: t3).length = 4) (x3 : ∀ c ∈ c3 :: t3, isXDigit c = true)
    (h4 : t4.length = 3) (x4 : ∀ c ∈ t4, isXDigit c = true)
    (v4 : (decide (49 ≤ c4.toNat) && decide (c4.toNat ≤ 53)) = true)
    (h5 : (c5 :: t5).length = 4) (x5 : ∀ c ∈ c5 :: t5, isXDigit c = true)
    (h6 : (c6 :: t6).length = 12) (x6 : ∀ c ∈ c6 :: t6, isXDigit c = true)
    (hdec : hexDecodeString
      ((c2 :: t2) ++ (c3 :: t3) ++ (c4 :: t4) ++ (c5 :: t5) ++ (c6 :: t6)) = some bytes) :
    Parse (String.mk ((if pre then "urn:uuid:".data else []) ++ (ob.toList ++ ((c2 :: t2) ++
      ((if d1 then ['-'] else []) ++ ((c3 :: t3) ++ ((if d2 then ['-'] else []) ++ (c4 :: (t4 ++
      ((if d3 then ['-'] else []) ++ ((c5 :: t5) ++ ((if d4 then ['-'] else []) ++
      ((c6 :: t6) ++ cb.toList))))))))))))) = .returned (some bytes, none) := by
  have hrun := run_hexPattern pre ob cb d1 d2 d3 d4 c2 c3 c4 c5 c6 t2 t3 t4 t5 t6 hob hcb
    h2 x2 h3 x3 h4 x4 v4 h5 x5 h6 x6
  unfold Parse parse FindStringSubmatch
  simp only [hrun, List.head?_cons, Option.map_some']
  simp only [List.cons_append, List.append_assoc] at hdec
  cases pre <;> simp [submatch, List.find?, fromHex, hdec]

/-- A list of positive length has a first element. -/
theorem exists_cons_of_length (l : List Char) (n : Nat) (h : l.length = n + 1) :
    ∃ c t, l = c :: t := by
  cases l with
  | nil => simp at h
  | cons c t => exact ⟨c, t, rfl⟩

/-- A string of 32 characters is its groups of 8, 4, 4, 4 and 12 characters. -/
theorem split_groups (h : List Char) :
    h.take 8 ++ (h.drop 8).take 4 ++ (h.drop 12).take 4 ++ (h.drop 16).take 4 ++ h.drop 20 = h := by
  have a1 : (h.drop 16).take 4 ++ h.drop 20 = h.drop 16 := by
    have := List.take_append_drop 4 (h.drop 16)
    simpa [List.drop_drop] using this
  have a2 : (h.drop 12).take 4 ++ h.drop 16 = h.drop 12 := by
    have := List.take_append_drop 4 (h.drop 12)
    simpa [List.drop_drop] using this
  have a3 : (h.drop 8).take 4 ++ h.drop 12 = h.drop 8 := by
    have := List.take_append_drop 4 (h.drop 8)
    simpa [List.drop_drop] using this
  rw [List.append_assoc, List.append_assoc, List.append_assoc, a1, a2, a3, List.take_append_drop]

/-- C20. For every string h of 32 hexadecimal digits (upper or lower case) whose
13th digit is one of 1 to 5, and every way of writing it with an optional
`urn:uuid:` in front, an optional opening bracket (`{`, `(` or `[`), each of the
four hyphens of the 8-4-4-4-12 grouping present or absent on its own, and an
optional closing bracket (`]`, `}` or `)`), `Parse` returns a nil error and 16
bytes, the bytes h denotes in order: byte i is sixteen times the value of digit 2i
plus the value of digit 2i + 1. -/
theorem Parse_valid (h : List Char) (pre : Bool) (ob cb : Option Char) (d1 d2 d3 d4 : Bool)
    (hlen : h.length = 32) (hhex : ∀ c ∈ h, isXDigit c = true)
    (hver : ∃ c, h[12]? = some c ∧ c ∈ ['1', '2', '3', '4', '5'])
    (hob : ∀ b, ob = some b → b = '{' ∨ b = '(' ∨ b = '[')
    (hcb : ∀ b, cb = some b → b = ']' ∨ b = '}' ∨ b = ')') :
    ∃ bytes,
      Parse (String.mk ((if pre then "urn:uuid:".data else []) ++ ob.toList ++
        h.take 8 ++ (if d1 then ['-'] else []) ++
        (h.drop 8).take 4 ++ (if d2 then ['-'] else []) ++
        (h.drop 12).take 4 ++ (if d3 then ['-'] else []) ++
        (h.drop 16).take 4 ++ (if d4 then ['-'] else []) ++
        h.drop 20 ++ cb.toList)) = .returned (some bytes, none) ∧
      bytes.length = 16 ∧
      ∀ i, i < 16 → ∃ a b x y, h[2 * i]? = some a ∧ h[2 * i + 1]? = some b ∧
        fromHexChar a = some x ∧ fromHexChar b = some y ∧ x < 16 ∧ y < 16 ∧
        bytes[i]? = some (x * 16 + y) := by
  obtain ⟨bytes, hdec, hbl, hbi⟩ := hexDecodeString_xdigits 16 h hlen hhex
  refine ⟨bytes, ?_, hbl, hbi⟩
  have l2 : (h.take 8).length = 7 + 1 := by rw [List.length_take, hlen]; rfl
  have l3 : ((h.drop 8).take 4).length = 3 + 1 := by
    rw [List.length_take, List.length_drop, hlen]; rfl
  have l4 : ((h.drop 12).take 4).length = 3 + 1 := by
    rw [List.length_take, List.length_drop, hlen]; rfl
  have l5 : ((h.drop 16).take 4).length = 3 + 1 := by
    rw [List.length_take, List.length_drop, hlen]; rfl
  have l6 : (h.drop 20).length = 11 + 1 := by rw [List.length_drop, hlen]
  obtain ⟨c2, t2, e2⟩ := exists_cons_of_length _ _ l2
  obtain ⟨c3, t3, e3⟩ := exists_cons_of_length _ _ l3
  obtain ⟨c4, t4, e4⟩ := exists_cons_of_length _ _ l4
  obtain ⟨c5, t5, e5⟩ := exists_cons_of_length _ _ l5
  obtain ⟨c6, t6, e6⟩ := exists_cons_of_length _ _ l6
  have x2 : ∀ c ∈ c2 :: t2, isXDigit c = true := fun c hc =>
    hhex c (List.mem_of_mem_take (e2 ▸ hc))
  have x3 : ∀ c ∈ c3 :: t3, isXDigit c = true := fun c hc =>
    hhex c (List.mem_of_mem_drop (List.mem_of_mem_take (e3 ▸ hc)))
  have x4 : ∀ c ∈ c4 :: t4, isXDigit c = true := fun c hc =>
    hhex c (List.mem_of_mem_drop (List.mem_of_mem_take (e4 ▸ hc)))
  have x5 : ∀ c ∈ c5 :: t5, isXDigit c = true := fun c hc =>
    hhex c (List.mem_of_mem_drop (List.mem_of_mem_take (e5 ▸ hc)))
  have x6 : ∀ c ∈ c6 :: t6, isXDigit c = true := fun c hc =>
    hhex c (List.mem_of_mem_drop (e6 ▸ hc))
  have v4 : (decide (49 ≤ c4.toNat) && decide (c4.toNat ≤ 53)) = true := by
    obtain ⟨c, hc, hm⟩ := hver
    have h0 : ((h.drop 12).take 4)[0]? = some c := by
      rw [List.getElem?_take, if_pos (by decide), List.getElem?_drop]; exact hc
    rw [e4] at h0
    simp only [List.getElem?_cons_zero, Option.some.injEq] at h0
    subst h0
    simp only [List.mem_cons, List.mem_singleton, List.not_mem_nil, or_false] at hm
    rcases hm with e | e | e | e | e <;> subst e <;> decide
  have hob' : ∀ b, ob = some b → (b == '{' || b == '(' || b == '[') = true := by
    intro b hb
    rcases hob b hb with e | e | e <;> subst e <;> decide
  have hcb' : ∀ b, cb = some b → (b == ']' || b == '}' || b == ')') = true := by
    intro b hb
    rcases hcb b hb with e | e | e <;> subst e <;> decide
  have hsplit := split_groups h
  rw [e2, e3, e4, e5, e6] at hsplit
  rw [← hsplit] at hdec
  have key := Parse_groups pre ob cb d1 d2 d3 d4 c2 c3 c4 c5 c6 t2 t3 t4 t5 t6 bytes hob' hcb'
    (e2 ▸ l2) x2 (e3 ▸ l3) x3 (by simpa [e4] using l4)
    (fun c hc => x4 c (List.mem_cons_of_mem _ hc)) v4 (e5 ▸ l5) x5 (e6 ▸ l6) x6 hdec
  rw [e2, e3, e4, e5, e6]
  simp only [List.cons_append, List.append_assoc] at key ⊢
  exact key

/-- C20, at a concrete input: the digits `6ba7b8149dad11d180b400c04fd430c8` written
with braces and the four hyphens. -/
theorem Parse_valid_witness :
    ∃ bytes, Parse "\x7b6ba7b814-9dad-11d1-80b4-00c04fd430c8\x7d" = .returned (some bytes, none) ∧
      bytes.length = 16 := by
  obtain ⟨bytes, h, hl, _⟩ := Parse_valid "6ba7b8149dad11d180b400c04fd430c8".data false
    (some '{') (some '}') true true true true rfl (by decide) ⟨'1', rfl, by decide⟩
    (fun b hb => Or.inl (Option.some.inj hb).symm)
    (fun b hb => Or.inr (Or.inl (Option.some.inj hb).symm))
  exact ⟨bytes, h, hl⟩

/-- The six documented formats and every entry of `validHexStrings` parse, with a
nil error, to the bytes `6b a7 b8 14 9d ad 11 d1 80 b4 00 c0 4f d4 30 c8`. -/
theorem Parse_documented_and_valid :
    ∀ s ∈ documentedFormats ++ validHexStrings,
      Parse s = .returned (some [0x6b, 0xa7, 0xb8, 0x14, 0x9d, 0xad, 0x11, 0xd1,
        0x80, 0xb4, 0x00, 0xc0, 0x4f, 0xd4, 0x30, 0xc8], none) := by
  decide

/-! ## The constructor `NewGenerator` -/

/-- C24. `NewGenerator(config)` runs the one-time initialization of the
package-level default generator and not of the Generator it returns: for every
config and every state of the package, the returned Generator is the one
`newGenerator` builds, it holds the empty state (zero timestamp, zero sequence, no
node) and its own `sync.Once` is unused, while the `sync.Once` of the default
generator has fired; when that one was still unused, the default generator is the
old one after `init`. -/
theorem NewGenerator_inits_default (d : Defaults) (p : Package) (config : GeneratorConfig) :
    (NewGenerator d p config).1 = newGenerator d config ∧
    (NewGenerator d p config).1.Store = { Timestamp := 0, Sequence := 0, Node := [] } ∧
    (NewGenerator d p config).1.done = false ∧
    (NewGenerator d p config).2.generator.done = true ∧
    (p.generator.done = false →
      (NewGenerator d p config).2.generator = { p.generator.init with done := true }) ∧
    (p.generator.done = true → (NewGenerator d p config).2.generator = p.generator) := by
  refine ⟨rfl, rfl, rfl, ?_, ?_, ?_⟩
  · show (p.generator.Do Generator.init).done = true
    unfold Generator.Do
    split
    · assumption
    · rfl
  · intro h
    show p.generator.Do Generator.init = _
    unfold Generator.Do
    rw [if_neg (by rw [h]; decide)]
  · intro h
    show p.generator.Do Generator.init = _
    unfold Generator.Do
    rw [if_pos h]

/-! ## The order of identifiers -/

/-- Big-endian reading of a four-byte buffer. -/
theorem BigEndianUint32_quad (b0 b1 b2 b3 : Nat) (h0 : b0 < 256) (h1 : b1 < 256)
    (h2 : b2 < 256) (h3 : b3 < 256) :
    BigEndianUint32 [b0, b1, b2, b3] = b0 * 2 ^ 24 + b1 * 2 ^ 16 + b2 * 2 ^ 8 + b3 := by
  unfold BigEndianUint32
  have e3 : b3 % 2 ^ 32 = b3 := Nat.mod_eq_of_lt (by omega)
  have e2 : b2 % 2 ^ 32 = b2 := Nat.mod_eq_of_lt (by omega)
  have e1 : b1 % 2 ^ 32 = b1 := Nat.mod_eq_of_lt (by omega)
  have e0 : b0 % 2 ^ 32 = b0 := Nat.mod_eq_of_lt (by omega)
  have f2 : b2 * 2 ^ 8 % 2 ^ 32 = b2 * 2 ^ 8 := Nat.mod_eq_of_lt (by omega)
  have f1 : b1 * 2 ^ 16 % 2 ^ 32 = b1 * 2 ^ 16 := Nat.mod_eq_of_lt (by omega)
  have f0 : b0 * 2 ^ 24 % 2 ^ 32 = b0 * 2 ^ 24 := Nat.mod_eq_of_lt (by omega)
  simp only [List.getD_cons_zero, List.getD_cons_succ, e0, e1, e2, e3, Nat.shiftLeft_eq, f0, f1, f2]
  have g1 := Nat.mul_add_lt_is_or (show b3 < 2 ^ 8 by omega) b2
  have g2 := Nat.mul_add_lt_is_or (show 2 ^ 8 * b2 + b3 < 2 ^ 16 by omega) b1
  have g3 := Nat.mul_add_lt_is_or (show 2 ^ 16 * b1 + (2 ^ 8 * b2 + b3) < 2 ^ 24 by omega) b0
  have c1 : b3 ||| b2 * 2 ^ 8 = 2 ^ 8 * b2 + b3 := by
    rw [Nat.lor_comm, Nat.mul_comm, ← g1]
  have c2 : b3 ||| b2 * 2 ^ 8 ||| b1 * 2 ^ 16 = 2 ^ 16 * b1 + (2 ^ 8 * b2 + b3) := by
    rw [c1, Nat.lor_comm, Nat.mul_comm b1, ← g2]
  rw [c2, Nat.lor_comm, Nat.mul_comm b0, ← g3]
  omega

/-- The comparison of two slices with a common-length front decides on the fronts,
and on the rests when the fronts are equal. -/
theorem bytesCompare_append :
    ∀ (x y a b : List Nat), x.length = y.length →
      bytesCompare (x ++ a) (y ++ b) =
        if bytesCompare x y = 0 then bytesCompare a b else bytesCompare x y := by
  intro x
  induction x with
  | nil =>
    intro y a b h
    have : y = [] := List.length_eq_zero.mp h.symm
    subst this
    simp [bytesCompare]
  | cons c x ih =>
    intro y a b h
    cases y with
    | nil => simp at h
    | cons d y =>
      have hl : x.length = y.length := by simpa using h
      simp only [List.cons_append, bytesCompare]
      by_cases h1 : c < d
      · simp [h1]
      · by_cases h2 : d < c
        · simp [h1, h2]
        · simp only [h1, h2, if_false]
          exact ih y a b hl

/-- On four bytes the lexicographic comparison is the comparison of the
big-endian values. -/
theorem bytesCompare_four (a0 a1 a2 a3 b0 b1 b2 b3 : Nat)
    (ha0 : a0 < 256) (ha1 : a1 < 256) (ha2 : a2 < 256) (ha3 : a3 < 256)
    (hb0 : b0 < 256) (hb1 : b1 < 256) (hb2 : b2 < 256) (hb3 : b3 < 256) :
    bytesCompare [a0, a1, a2, a3] [b0, b1, b2, b3] =
      if BigEndianUint32 [a0, a1, a2, a3] < BigEndianUint32 [b0, b1, b2, b3] then -1
      else if BigEndianUint32 [b0, b1, b2, b3] < BigEndianUint32 [a0, a1, a2, a3] then 1
      else 0 := by
  rw [BigEndianUint32_quad a0 a1 a2 a3 ha0 ha1 ha2 ha3,
    BigEndianUint32_quad b0 b1 b2 b3 hb0 hb1 hb2 hb3]
  simp only [bytesCompare]
  split_ifs <;> first | rfl | omega

/-- On two bytes the lexicographic comparison is the comparison of the big-endian
values. -/
theorem bytesCompare_two (a0 a1 b0 b1 : Nat)
    (ha0 : a0 < 256) (ha1 : a1 < 256) (hb0 : b0 < 256) (hb1 : b1 < 256) :
    bytesCompare [a0, a1] [b0, b1] =
      if BigEndianUint16 [a0, a1] < BigEndianUint16 [b0, b1] then -1
      else if BigEndianUint16 [b0, b1] < BigEndianUint16 [a0, a1] then 1
      else 0 := by
  rw [BigEndianUint16_pair a0 a1 ha0 ha1, BigEndianUint16_pair b0 b1 hb0 hb1]
  simp only [bytesCompare]
  split_ifs <;> first | rfl | omega

/-- The library comparison against the lexicographic order of lists. -/
theorem bytesCompare_spec :
    ∀ a b : List Nat,
      (bytesCompare a b = -1 ↔ List.Lex (· < ·) a b) ∧
      (bytesCompare a b = 1 ↔ List.Lex (· < ·) b a) ∧
      (bytesCompare a b = 0 ↔ a = b) ∧
      (bytesCompare a b = -1 ∨ bytesCompare a b = 0 ∨ bytesCompare a b = 1) := by
  intro a
  induction a with
  | nil =>
    intro b
    cases b with
    | nil =>
      refine ⟨⟨fun h => by simp [bytesCompare] at h, fun h => by cases h⟩,
        ⟨fun h => by simp [bytesCompare] at h, fun h => by cases h⟩,
        ⟨fun _ => rfl, fun _ => rfl⟩, Or.inr (Or.inl rfl)⟩
    | cons d b =>
      refine ⟨⟨fun _ => List.Lex.nil, fun _ => rfl⟩,
        ⟨fun h => by simp [bytesCompare] at h, fun h => by cases h⟩,
        ⟨fun h => by simp [bytesCompare] at h, fun h => by cases h⟩, Or.inl rfl⟩
  | cons c a ih =>
    intro b
    cases b with
    | nil =>
      refine ⟨⟨fun h => by simp [bytesCompare] at h, fun h => by cases h⟩,
        ⟨fun _ => List.Lex.nil, fun _ => rfl⟩,
        ⟨fun h => by simp [bytesCompare] at h, fun h => by cases h⟩, Or.inr (Or.inr rfl)⟩
    | cons d b =>
      obtain ⟨i1, i2, i3, i4⟩ := ih b
      by_cases h1 : c < d
      · have e : bytesCompare (c :: a) (d :: b) = -1 := by simp only [bytesCompare, h1, if_true]
        rw [e]
        refine ⟨⟨fun _ => List.Lex.rel h1, fun _ => rfl⟩, ⟨fun h => by simp at h, ?_⟩,
          ⟨fun h => by simp at h, ?_⟩, Or.inl rfl⟩
        · intro h
          cases h with
          | cons h' => omega
          | rel h' => omega
        · intro h
          cases h
          omega
      · by_cases h2 : d < c
        · have e : bytesCompare (c :: a) (d :: b) = 1 := by
            simp only [bytesCompare, h1, h2, if_true, if_false]
          rw [e]
          refine ⟨⟨fun h => by simp at h, ?_⟩, ⟨fun _ => List.Lex.rel h2, fun _ => rfl⟩,
            ⟨fun h => by simp at h, ?_⟩, Or.inr (Or.inr rfl)⟩
          · intro h
            cases h with
            | cons h' => omega
            | rel h' => omega
          · intro h
            cases h
            omega
        · have e : bytesCompare (c :: a) (d :: b) = bytesCompare a b := by
            simp only [bytesCompare, h1, h2, if_false]
          rw [e]
          have hcd : c = d := by omega
          subst hcd
          refine ⟨⟨fun h => List.Lex.cons (i1.mp h), ?_⟩,
            ⟨fun h => List.Lex.cons (i2.mp h), ?_⟩,
            ⟨fun h => by rw [i3.mp h], fun h => i3.mpr (List.cons.inj h).2⟩, i4⟩
          · intro h
            cases h with
            | cons h' => exact i1.mpr h'
            | rel h' => exact absurd h' h1
          · intro h
            cases h with
            | cons h' => exact i2.mpr h'
            | rel h' => exact absurd h' h1

/-- A list of sixteen elements, written out. -/
theorem length_sixteen (a : List Nat) (h : a.length = 16) :
    ∃ a0 a1 a2 a3 a4 a5 a6 a7 a8 a9 a10 a11 a12 a13 a14 a15,
      a = [a0, a1, a2, a3, a4, a5, a6, a7, a8, a9, a10, a11, a12, a13, a14, a15] := by
  match a, h with
  | [a0, a1, a2, a3, a4, a5, a6, a7, a8, a9, a10, a11, a12, a13, a14, a15], _ =>
    exact ⟨a0, a1, a2, a3, a4, a5, a6, a7, a8, a9, a10, a11, a12, a13, a14, a15, rfl⟩

/-- The cascade of `Compare` over three numeric fields and a tail is the cascade
of their three-way comparisons. -/
theorem compare_cascade (X Y M1 M2 N1 N2 : Nat) (T : Int) :
    (if X ≠ Y then
        if X < Y then Outcome.returned (-1 : Int) else Outcome.returned 1
      else if M1 ≠ M2 then
        if M1 < M2 then Outcome.returned (-1) else Outcome.returned 1
      else if N1 ≠ N2 then
        if N1 < N2 then Outcome.returned (-1) else Outcome.returned 1
      else Outcome.returned T) =
    Outcome.returned
      (if (if X < Y then (-1 : Int) else if Y < X then 1 else 0) = 0 then
        if (if M1 < M2 then (-1 : Int) else if M2 < M1 then 1 else 0) = 0 then
          if (if N1 < N2 then (-1 : Int) else if N2 < N1 then 1 else 0) = 0 then T
          else if N1 < N2 then -1 else if N2 < N1 then 1 else 0
        else if M1 < M2 then -1 else if M2 < M1 then 1 else 0
      else if X < Y then -1 else if Y < X then 1 else 0) := by
  rcases Nat.lt_trichotomy X Y with h | h | h
  · have h1 : X ≠ Y := by omega
    simp [h1, h]
  · subst h
    rcases Nat.lt_trichotomy M1 M2 with h | h | h
    · have h1 : M1 ≠ M2 := by omega
      simp [h1, h]
    · subst h
      rcases Nat.lt_trichotomy N1 N2 with h | h | h
      · have h1 : N1 ≠ N2 := by omega
        simp [h1, h]
      · subst h
        simp
      · have h1 : N1 ≠ N2 := by omega
        have h2 : ¬ N1 < N2 := by omega
        simp [h1, h, h2]
    · have h1 : M1 ≠ M2 := by omega
      have h2 : ¬ M1 < M2 := by omega
      simp [h1, h, h2]
  · have h1 : X ≠ Y := by omega
    have h2 : ¬ X < Y := by omega
    simp [h1, h, h2]

/-- On two UUIDs of 16 bytes `Compare` returns what `bytes.Compare` returns on the
whole byte sequences. -/
theorem Compare_eq_bytesCompare (a b : List Nat) (ha : a.length = 16) (hb : b.length = 16)
    (hxa : ∀ x ∈ a, x < 256) (hxb : ∀ x ∈ b, x < 256) :
    Compare (some a) (some b) = .returned (bytesCompare a b) := by
  obtain ⟨a0, a1, a2, a3, a4, a5, a6, a7, a8, a9, a10, a11, a12, a13, a14, a15, rfl⟩ :=
    length_sixteen a ha
  obtain ⟨b0, b1, b2, b3, b4, b5, b6, b7, b8, b9, b10, b11, b12, b13, b14, b15, rfl⟩ :=
    length_sixteen b hb
  have s3 := bytesCompare_append [a6, a7] [b6, b7] [a8, a9, a10, a11, a12, a13, a14, a15]
    [b8, b9, b10, b11, b12, b13, b14, b15] rfl
  have s2 := bytesCompare_append [a4, a5] [b4, b5]
    ([a6, a7] ++ [a8, a9, a10, a11, a12, a13, a14, a15])
    ([b6, b7] ++ [b8, b9, b10, b11, b12, b13, b14, b15]) rfl
  have s1 := bytesCompare_append [a0, a1, a2, a3] [b0, b1, b2, b3]
    ([a4, a5] ++ ([a6, a7] ++ [a8, a9, a10, a11, a12, a13, a14, a15]))
    ([b4, b5] ++ ([b6, b7] ++ [b8, b9, b10, b11, b12, b13, b14, b15])) rfl
  rw [s2, s3] at s1
  simp only [List.cons_append, List.nil_append] at s1
  rw [s1]
  have ba0 : a0 < 256 := hxa a0 (by simp)
  have ba1 : a1 < 256 := hxa a1 (by simp)
  have ba2 : a2 < 256 := hxa a2 (by simp)
  have ba3 : a3 < 256 := hxa a3 (by simp)
  have ba4 : a4 < 256 := hxa a4 (by simp)
  have ba5 : a5 < 256 := hxa a5 (by simp)
  have ba6 : a6 < 256 := hxa a6 (by simp)
  have ba7 : a7 < 256 := hxa a7 (by simp)
  have bb0 : b0 < 256 := hxb b0 (by simp)
  have bb1 : b1 < 256 := hxb b1 (by simp)
  have bb2 : b2 < 256 := hxb b2 (by simp)
  have bb3 : b3 < 256 := hxb b3 (by simp)
  have bb4 : b4 < 256 := hxb b4 (by simp)
  have bb5 : b5 < 256 := hxb b5 (by simp)
  have bb6 : b6 < 256 := hxb b6 (by simp)
  have bb7 : b7 < 256 := hxb b7 (by simp)
  rw [bytesCompare_four a0 a1 a2 a3 b0 b1 b2 b3 ba0 ba1 ba2 ba3 bb0 bb1 bb2 bb3,
    bytesCompare_two a4 a5 b4 b5 ba4 ba5 bb4 bb5,
    bytesCompare_two a6 a7 b6 b7 ba6 ba7 bb6 bb7]
  unfold Compare
  have hl : ¬ ([a0, a1, a2, a3, a4, a5, a6, a7, a8, a9, a10, a11, a12, a13, a14, a15].length < 8 ∨
      [b0, b1, b2, b3, b4, b5, b6, b7, b8, b9, b10, b11, b12, b13, b14, b15].length < 8) := by
    simp
  simp only [hl, if_false, List.take_succ_cons, List.take_zero, List.drop_succ_cons,
    List.drop_zero]
  exact compare_cascade _ _ _ _ _ _ _

/-- C22. For all UUIDs a and b of 16 bytes, `Compare(a, b)` returns the
lexicographic comparison of their byte sequences, the value of `bytes.Compare` on
the whole sequences: it is 0 exactly when the bytes are equal, -1 exactly when the
bytes of a are lexicographically smaller, +1 exactly when they are larger, and no
other value; and a nil argument is compared as `Nil`, sixteen zero bytes. -/
theorem Compare_lexicographic (a b : List Nat) (ha : a.length = 16) (hb : b.length = 16)
    (hxa : ∀ x ∈ a, x < 256) (hxb : ∀ x ∈ b, x < 256) :
    (∃ r : Int, Compare (some a) (some b) = .returned r ∧ r = bytesCompare a b ∧
      (r = 0 ↔ a = b) ∧ (r = -1 ↔ List.Lex (· < ·) a b) ∧ (r = 1 ↔ List.Lex (· < ·) b a) ∧
      (r = -1 ∨ r = 0 ∨ r = 1)) ∧
    Compare none (some b) = Compare (some Nil) (some b) ∧
    Compare (some a) none = Compare (some a) (some Nil) ∧
    Compare none none = .returned 0 := by
  obtain ⟨i1, i2, i3, i4⟩ := bytesCompare_spec a b
  exact ⟨⟨_, Compare_eq_bytesCompare a b ha hb hxa hxb, rfl, i3, i1, i2, i4⟩, rfl, rfl,
    by decide⟩

/-- C22, at a concrete input: two identifiers that differ in the last byte only. -/
theorem Compare_lexicographic_witness :
    Compare (some [1, 2, 3, 4, 5, 6, 7, 8, 9, 10, 11, 12, 13, 14, 15, 16])
      (some [1, 2, 3, 4, 5, 6, 7, 8, 9, 10, 11, 12, 13, 14, 15, 17]) = .returned (-1) := by
  obtain ⟨⟨r, h, hr, _⟩, _⟩ := Compare_lexicographic
    [1, 2, 3, 4, 5, 6, 7, 8, 9, 10, 11, 12, 13, 14, 15, 16]
    [1, 2, 3, 4, 5, 6, 7, 8, 9, 10, 11, 12, 13, 14, 15, 17] rfl rfl (by decide) (by decide)
  rw [h, hr]
  decide

/-! ## Rejected strings -/

/-- If a concatenation has an outcome, the first part has one after which the
second part has an outcome. -/
theorem ne_cat (r K : Regexp) (inp : List Char) (h : (Regexp.cat r K).run inp ≠ []) :
    ∃ a, a ∈ r.run inp ∧ K.run a.1 ≠ [] := by
  obtain ⟨x, hx⟩ := List.exists_mem_of_ne_nil _ h
  rw [Regexp.run, List.mem_flatMap] at hx
  obtain ⟨a, ha, hx⟩ := hx
  rw [List.mem_map] at hx
  obtain ⟨b, hb, _⟩ := hx
  exact ⟨a, ha, List.ne_nil_of_mem hb⟩

/-- An outcome of a literal: the input is the literal followed by what is left. -/
theorem rest_lit (l inp : List Char) (a : List Char × Captures)
    (h : a ∈ (Regexp.lit l).run inp) : inp = l ++ a.1 := by
  rw [Regexp.run] at h
  split at h
  · rename_i hp
    rw [List.mem_singleton] at h
    subst h
    rw [ List.isPrefixOf_iff_prefix] at hp
    obtain ⟨t, ht⟩ := hp
    subst ht
    simp
  · simp at h

/-- An outcome of a character class: the input is a character of the class
followed by what is left. -/
theorem rest_cls (p : Char → Bool) (inp : List Char) (a : List Char × Captures)
    (h : a ∈ (Regexp.cls p).run inp) : ∃ c, p c = true ∧ inp = c :: a.1 := by
  cases inp with
  | nil => simp [Regexp.run] at h
  | cons c rest =>
    by_cases hc : p c = true
    · rw [run_cls p c rest hc, List.mem_singleton] at h
      subst h
      exact ⟨c, hc, rfl⟩
    · simp [Regexp.run, hc] at h

/-- An outcome of a class repeated n times: the input is n characters of the class
followed by what is left. -/
theorem rest_repeat_cls (p : Char → Bool) :
    ∀ (n : Nat) (inp : List Char) (a : List Char × Captures),
      a ∈ repeatRun (Regexp.cls p).run n inp →
      ∃ g, g.length = n ∧ (∀ c ∈ g, p c = true) ∧ inp = g ++ a.1 := by
  intro n
  induction n with
  | zero =>
    intro inp a h
    rw [repeatRun, List.mem_singleton] at h
    subst h
    exact ⟨[], rfl, (fun c hc => by cases hc), rfl⟩
  | succ n ih =>
    intro inp a h
    rw [repeatRun, List.mem_flatMap] at h
    obtain ⟨a1, ha1, h⟩ := h
    rw [List.mem_map] at h
    obtain ⟨b, hb, hab⟩ := h
    obtain ⟨c, hc, hinp⟩ := rest_cls p inp a1 ha1
    obtain ⟨g, hg, hp, hr⟩ := ih a1.1 b hb
    subst hab
    refine ⟨c :: g, by simp [hg], ?_, ?_⟩
    · intro x hx
      rcases List.mem_cons.mp hx with e | e
      · subst e; exact hc
      · exact hp x e
    · rw [hinp, hr]; rfl

/-- An optional literal before `K`, when there is an outcome. -/
theorem stage_opt_lit (l : List Char) (K : Regexp) (inp : List Char)
    (h : (Regexp.cat (.opt (.lit l)) K).run inp ≠ []) :
    ∃ (d : Bool) (rest : List Char), inp = (if d then l else []) ++ rest ∧ K.run rest ≠ [] := by
  obtain ⟨a, ha, hK⟩ := ne_cat _ _ _ h
  rw [Regexp.run, List.mem_append] at ha
  rcases ha with ha | ha
  · exact ⟨true, a.1, by simpa using rest_lit l inp a ha, hK⟩
  · rw [List.mem_singleton] at ha
    subst ha
    exact ⟨false, inp, by simp, hK⟩

/-- An optional group that holds a literal, before `K`, when there is an outcome. -/
theorem stage_opt_grp_lit (i : Nat) (l : List Char) (K : Regexp) (inp : List Char)
    (h : (Regexp.cat (.opt (.grp i (.lit l))) K).run inp ≠ []) :
    ∃ (d : Bool) (rest : List Char), inp = (if d then l else []) ++ rest ∧ K.run rest ≠ [] := by
  obtain ⟨a, ha, hK⟩ := ne_cat _ _ _ h
  rw [Regexp.run, List.mem_append] at ha
  rcases ha with ha | ha
  · rw [Regexp.run, List.mem_map] at ha
    obtain ⟨a', ha', e⟩ := ha
    subst e
    exact ⟨true, a'.1, by simpa using rest_lit l inp a' ha', hK⟩
  · rw [List.mem_singleton] at ha
    subst ha
    exact ⟨false, inp, by simp, hK⟩

/-- An optional character of a class before `K`, when there is an outcome. -/
theorem stage_opt_cls (p : Char → Bool) (K : Regexp) (inp : List Char)
    (h : (Regexp.cat (.opt (.cls p)) K).run inp ≠ []) :
    ∃ (ob : Option Char) (rest : List Char), (∀ b, ob = some b → p b = true) ∧
      inp = ob.toList ++ rest ∧ K.run rest ≠ [] := by
  obtain ⟨a, ha, hK⟩ := ne_cat _ _ _ h
  rw [Regexp.run, List.mem_append] at ha
  rcases ha with ha | ha
  · obtain ⟨c, hc, hinp⟩ := rest_cls p inp a ha
    refine ⟨some c, a.1, ?_, by rw [hinp]; rfl, hK⟩
    intro b hb
    cases hb
    exact hc
  · rw [List.mem_singleton] at ha
    subst ha
    exact ⟨none, inp, (fun b hb => by cases hb), rfl, hK⟩

/-- A group of n characters of a class before `K`, when there is an outcome. -/
theorem stage_grp_rep (i n : Nat) (p : Char → Bool) (K : Regexp) (inp : List Char)
    (h : (Regexp.cat (.grp i (.rep n (.cls p))) K).run inp ≠ []) :
    ∃ (g rest : List Char), g.length = n ∧ (∀ c ∈ g, p c = true) ∧ inp = g ++ rest ∧
      K.run rest ≠ [] := by
  obtain ⟨a, ha, hK⟩ := ne_cat _ _ _ h
  rw [Regexp.run, List.mem_map] at ha
  obtain ⟨a', ha', e⟩ := ha
  subst e
  rw [Regexp.run] at ha'
  obtain ⟨g, hg, hp, hinp⟩ := rest_repeat_cls p n inp a' ha'
  exact ⟨g, a'.1, hg, hp, hinp, hK⟩

/-- A group made of one character of a class and n of another, before `K`, when
there is an outcome. -/
theorem stage_grp_cls_rep (i n : Nat) (q p : Char → Bool) (K : Regexp) (inp : List Char)
    (h : (Regexp.cat (.grp i (.cat (.cls q) (.rep n (.cls p)))) K).run inp ≠ []) :
    ∃ (c : Char) (g rest : List Char), q c = true ∧ g.length = n ∧ (∀ x ∈ g, p x = true) ∧
      inp = c :: (g ++ rest) ∧ K.run rest ≠ [] := by
  obtain ⟨a, ha, hK⟩ := ne_cat _ _ _ h
  rw [Regexp.run, List.mem_map] at ha
  obtain ⟨a', ha', e⟩ := ha
  subst e
  rw [Regexp.run, List.mem_flatMap] at ha'
  obtain ⟨a1, ha1, ha'⟩ := ha'
  rw [List.mem_map] at ha'
  obtain ⟨a2, ha2, e⟩ := ha'
  subst e
  obtain ⟨c, hc, hinp⟩ := rest_cls q inp a1 ha1
  rw [Regexp.run] at ha2
  obtain ⟨g, hg, hp, hr⟩ := rest_repeat_cls p n a1.1 a2 ha2
  exact ⟨c, g, a2.1, hc, hg, hp, by rw [hinp, hr], hK⟩

/-- The end of the text has an outcome on the empty input only. -/
theorem stage_eot (inp : List Char) (h : Regexp.eot.run inp ≠ []) : inp = [] := by
  rw [Regexp.run] at h
  cases inp with
  | nil => rfl
  | cons c t => simp at h

/-- A character from 49 to 53 is one of the digits 1 to 5. -/
theorem version_digit (c : Char) (h : (decide (49 ≤ c.toNat) && decide (c.toNat ≤ 53)) = true) :
    c ∈ ['1', '2', '3', '4', '5'] := by
  simp only [Bool.and_eq_true, decide_eq_true_eq] at h
  have hc := Char.ofNat_toNat c
  have h5 : c.toNat = 49 ∨ c.toNat = 50 ∨ c.toNat = 51 ∨ c.toNat = 52 ∨ c.toNat = 53 := by omega
  rcases h5 with e | e | e | e | e <;> rw [e] at hc <;> rw [← hc] <;> decide

/-- Whenever the pattern has an outcome, the string has the documented shape. -/
theorem shape_of_match (s : List Char) (h : hexPattern.run s ≠ []) : HexShape s := by
  unfold hexPattern at h
  obtain ⟨pre, r1, e1, h⟩ := stage_opt_grp_lit _ _ _ _ h
  obtain ⟨ob, r2, hob, e2, h⟩ := stage_opt_cls _ _ _ h
  obtain ⟨g2, r3, l2, x2, e3, h⟩ := stage_grp_rep _ _ _ _ _ h
  obtain ⟨d1, r4, e4, h⟩ := stage_opt_lit _ _ _ h
  obtain ⟨g3, r5, l3, x3, e5, h⟩ := stage_grp_rep _ _ _ _ _ h
  obtain ⟨d2, r6, e6, h⟩ := stage_opt_lit _ _ _ h
  obtain ⟨v, g4, r7, hv, l4, x4, e7, h⟩ := stage_grp_cls_rep _ _ _ _ _ _ h
  obtain ⟨d3, r8, e8, h⟩ := stage_opt_lit _ _ _ h
  obtain ⟨g5, r9, l5, x5, e9, h⟩ := stage_grp_rep _ _ _ _ _ h
  obtain ⟨d4, r10, e10, h⟩ := stage_opt_lit _ _ _ h
  obtain ⟨g6, r11, l6, x6, e11, h⟩ := stage_grp_rep _ _ _ _ _ h
  obtain ⟨cb, r12, hcb, e12, h⟩ := stage_opt_cls _ _ _ h
  have e13 := stage_eot _ h
  refine ⟨pre, ob, cb, d1, d2, d3, d4, g2, g3, v, g4, g5, g6, ?_, ?_, l2, l3, version_digit v hv,
    l4, l5, l6, ?_, ?_⟩
  · intro b hb
    have := hob b hb
    simp only [Bool.or_eq_true, beq_iff_eq] at this
    rcases this with (e | e) | e
    · exact Or.inl e
    · exact Or.inr (Or.inl e)
    · exact Or.inr (Or.inr e)
  · intro b hb
    have := hcb b hb
    simp only [Bool.or_eq_true, beq_iff_eq] at this
    rcases this with (e | e) | e
    · exact Or.inl e
    · exact Or.inr (Or.inl e)
    · exact Or.inr (Or.inr e)
  · intro c hc
    simp only [List.mem_append] at hc
    rcases hc with (((hc | hc) | hc) | hc) | hc
    · exact x2 c hc
    · exact x3 c hc
    · exact x4 c hc
    · exact x5 c hc
    · exact x6 c hc
  · rw [e1, e2, e3, e4, e5, e6, e7, e8, e9, e10, e11, e12, e13]
    simp only [List.append_assoc, List.cons_append, List.append_nil]

/-- One of the digits 1 to 5 is in the version class and is a hexadecimal digit. -/
theorem version_class (v : Char) (h : v ∈ ['1', '2', '3', '4', '5']) :
    (decide (49 ≤ v.toNat) && decide (v.toNat ≤ 53)) = true ∧ isXDigit v = true := by
  simp only [List.mem_cons, List.mem_singleton, List.not_mem_nil, or_false] at h
  rcases h with e | e | e | e | e <;> subst e <;> exact ⟨by decide, by decide⟩

/-- On a string of the documented shape `Parse` returns 16 bytes and a nil error. -/
theorem Parse_of_shape (s : String) (h : HexShape s.data) :
    ∃ bytes, Parse s = .returned (some bytes, none) ∧ bytes.length = 16 := by
  obtain ⟨pre, ob, cb, d1, d2, d3, d4, g2, g3, v, g4, g5, g6, hob, hcb, l2, l3, hv, l4, l5, l6,
    hx, hs⟩ := h
  obtain ⟨c2, t2, rfl⟩ := exists_cons_of_length g2 7 l2
  obtain ⟨c3, t3, rfl⟩ := exists_cons_of_length g3 3 l3
  obtain ⟨c5, t5, rfl⟩ := exists_cons_of_length g5 3 l5
  obtain ⟨c6, t6, rfl⟩ := exists_cons_of_length g6 11 l6
  have hvc := version_class v hv
  have x2 : ∀ c ∈ c2 :: t2, isXDigit c = true := fun c hc =>
    hx c (List.mem_append_left _ (List.mem_append_left _ (List.mem_append_left _
      (List.mem_append_left _ hc))))
  have x3 : ∀ c ∈ c3 :: t3, isXDigit c = true := fun c hc =>
    hx c (List.mem_append_left _ (List.mem_append_left _ (List.mem_append_left _
      (List.mem_append_right _ hc))))
  have x4 : ∀ c ∈ g4, isXDigit c = true := fun c hc =>
    hx c (List.mem_append_left _ (List.mem_append_left _ (List.mem_append_right _ hc)))
  have x5 : ∀ c ∈ c5 :: t5, isXDigit c = true := fun c hc =>
    hx c (List.mem_append_left _ (List.mem_append_right _ hc))
  have x6 : ∀ c ∈ c6 :: t6, isXDigit c = true := fun c hc =>
    hx c (List.mem_append_right _ hc)
  have hob' : ∀ b, ob = some b → (b == '{' || b == '(' || b == '[') = true := by
    intro b hb
    rcases hob b hb with e | e | e <;> subst e <;> decide
  have hcb' : ∀ b, cb = some b → (b == ']' || b == '}' || b == ')') = true := by
    intro b hb
    rcases hcb b hb with e | e | e <;> subst e <;> decide
  obtain ⟨bytes, hdec, hbl, _⟩ := hexDecodeString_xdigits 16
    ((c2 :: t2) ++ (c3 :: t3) ++ (v :: g4) ++ (c5 :: t5) ++ (c6 :: t6))
    (by simp only [List.length_append, l2, l3, l5, l6, List.length_cons, l4])
    (by
      intro c hc
      simp only [List.mem_append] at hc
      rcases hc with (((hc | hc) | hc) | hc) | hc
      · exact x2 c hc
      · exact x3 c hc
      · rcases List.mem_cons.mp hc with e | e
        · rw [e]; exact hvc.2
        · exact x4 c e
      · exact x5 c hc
      · exact x6 c hc)
  have key := Parse_groups pre ob cb d1 d2 d3 d4 c2 c3 v c5 c6 t2 t3 g4 t5 t6 bytes hob' hcb'
    l2 x2 l3 x3 l4 x4 hvc.1 l5 x5 l6 x6 hdec
  refine ⟨bytes, ?_, hbl⟩
  have es : s = String.mk s.data := rfl
  rw [es, hs]
  simp only [List.cons_append, List.append_assoc] at key ⊢
  exact key

/-- A string of the documented shape has at least 32 characters. -/
theorem HexShape_length (s : List Char) (h : HexShape s) : 32 ≤ s.length := by
  obtain ⟨pre, ob, cb, d1, d2, d3, d4, g2, g3, v, g4, g5, g6, _, _, l2, l3, _, l4, l5, l6,
    _, hs⟩ := h
  rw [hs]
  simp only [List.length_append, List.length_cons, l2, l3, l4, l5, l6]
  omega

/-- C21. A bad input is rejected, never a panic: for every string that is not of
the documented shape (wrong digit count, doubled hyphen, stray character, version
digit outside 1-5) `Parse` returns a non-nil error and a nil UUID; and for every
string whatsoever `Parse` returns: the panic of `fromHex` cannot be reached from
`Parse`. -/
theorem Parse_rejects (s : String) :
    (¬ HexShape s.data →
      Parse s = .returned (none, some "uuid: invalid string format this is probably not a UUID")) ∧
    (∃ r, Parse s = .returned r) ∧ Parse s ≠ .panicked := by
  by_cases hrun : hexPattern.run s.data = []
  · have hp : Parse s =
        .returned (none, some "uuid: invalid string format this is probably not a UUID") := by
      unfold Parse parse FindStringSubmatch
      rw [hrun]
      rfl
    exact ⟨fun _ => hp, ⟨_, hp⟩, by rw [hp]; exact fun h => by cases h⟩
  · have hshape := shape_of_match s.data hrun
    obtain ⟨bytes, hb, _⟩ := Parse_of_shape s hshape
    exact ⟨fun h => absurd hshape h, ⟨_, hb⟩, by rw [hb]; exact fun h => by cases h⟩

/-- C21, at a concrete input: the string `foo`, which is too short to have the
shape. -/
theorem Parse_rejects_witness :
    Parse "foo" = .returned (none, some "uuid: invalid string format this is probably not a UUID") :=
  (Parse_rejects "foo").1 (fun h => absurd (HexShape_length _ h) (by decide))

/-- Every entry of `invalidHexStrings` is rejected with the error of `parse`. -/
theorem Parse_invalidHexStrings :
    ∀ s ∈ invalidHexStrings,
      Parse s = .returned (none, some "uuid: invalid string format this is probably not a UUID") := by
  decide

/-! ## Concurrent callers -/

/-- `NewV1` is `read` followed by the encoding of the state `read` leaves. -/
theorem NewV1_eq_encodeV1 (o : Generator) : o.NewV1 = (o.read.encodeV1, o.read) := rfl

/-- A caller that runs its two steps with no other caller in between gets what
`NewV1` returns, and leaves the Generator as `NewV1` leaves it. -/
theorem run_alone (o : Generator) (i : Nat) :
    ((Shared.start o).run [i, i]).results = [(i, o.NewV1.1)] ∧
    ((Shared.start o).run [i, i]).gen = o.NewV1.2 := by
  simp [Shared.run, Shared.step, Shared.start, NewV1_eq_encodeV1]

/-- After the first n callers have each run `read`, the Generator has been read n
times and nothing has been returned. -/
theorem run_reads (o : Generator) (n : Nat) :
    (Shared.start o).run (List.range n) =
      { gen := Generator.read^[n] o
        phase := fun j => if j < n then .hasRead else .idle
        results := [] } := by
  induction n with
  | zero => rfl
  | succ n ih =>
    unfold Shared.run at ih ⊢
    rw [List.range_succ, List.foldl_append, ih]
    simp only [List.foldl_cons, List.foldl_nil, Shared.step, Nat.lt_irrefl, if_false]
    rw [Function.iterate_succ_apply']
    congr 1
    funext j
    by_cases h1 : j = n
    · subst h1; simp
    · by_cases h2 : j < n
      · simp [h1, h2, Nat.lt_succ_of_lt h2]
      · have : ¬ j < n + 1 := by omega
        simp [h1, h2, this]

/-- When n callers have read and the first k of them then encode, each of the k
gets the encoding of the same state. -/
theorem run_encodes (g : Generator) (n k : Nat) (hk : k ≤ n) :
    (Shared.run { gen := g, phase := fun j => if j < n then .hasRead else .idle, results := [] }
        (List.range k)) =
      { gen := g
        phase := fun j => if j < k then .returned else if j < n then .hasRead else .idle
        results := (List.range k).map fun i => (i, g.encodeV1) } := by
  induction k with
  | zero => simp [Shared.run]
  | succ k ih =>
    have ih := ih (by omega)
    unfold Shared.run at ih ⊢
    rw [List.range_succ, List.foldl_append, ih]
    have hkn : k < n := by omega
    simp only [List.foldl_cons, List.foldl_nil, Shared.step, Nat.lt_irrefl, if_false, hkn, if_true,
      List.map_append, List.map_cons, List.map_nil]
    congr 1
    funext j
    by_cases h1 : j = k
    · subst h1; simp
    · by_cases h2 : j < k
      · simp [h1, h2, Nat.lt_succ_of_lt h2]
      · have : ¬ j < k + 1 := by omega
        simp [h1, h2, this]

/-- All reads first, all encodings after: every caller returns the encoding of the
state the last `read` left. -/
theorem run_reads_then_encodes (o : Generator) (n : Nat) :
    ((Shared.start o).run (List.range n ++ List.range n)).results =
      (List.range n).map fun i => (i, (Generator.read^[n] o).encodeV1) := by
  have h1 := run_reads o n
  have h2 := run_encodes (Generator.read^[n] o) n n (Nat.le_refl n)
  unfold Shared.run at h1 h2 ⊢
  rw [List.foldl_append, h1, h2]

/-- The schedule of n reads followed by n encodings is an interleaving of n calls. -/
theorem interleaving_reads_then_encodes (n : Nat) :
    Interleaving n (List.range n ++ List.range n) := by
  refine ⟨fun i hi => ?_, fun i hi => ?_⟩
  · rcases List.mem_append.1 hi with h | h <;> exact List.mem_range.1 h
  · rw [List.count_append,
      List.count_eq_one_of_mem (List.nodup_range n) (List.mem_range.2 hi)]

/-- The identifier encoded from the state that 1000 calls of `read` leave on
`standingGenerator`: timestamp 1000, sequence 0x1234 + 1000 = 0x161C. -/
theorem standing_encodeV1 :
    (Generator.read^[1000] standingGenerator).encodeV1 =
      [0, 0, 3, 232, 0, 0, 16, 0, 0x96, 0x1C, 1, 2, 3, 4, 5, 6] := by
  have h := iterate_read_standing 1000 1000 standingGenerator (fun _ => rfl) rfl
  unfold Generator.encodeV1
  rw [h.1, h.2.1, h.2.2]
  rfl

/-- C23, on the code. The 1000 concurrent `NewV1` calls on `standingGenerator`, whose
clock never advances, interleaved so that every caller completes `read` before any
caller encodes: the schedule is an interleaving of 1000 calls, all 1000 calls
return, and every one of them returns the same sixteen bytes, so the returned
identifiers are not pairwise distinct. -/
theorem concurrent_NewV1_duplicates :
    Interleaving 1000 (List.range 1000 ++ List.range 1000) ∧
    ((Shared.start standingGenerator).run (List.range 1000 ++ List.range 1000)).results =
      (List.range 1000).map
        (fun i => (i, [0, 0, 3, 232, 0, 0, 16, 0, 0x96, 0x1C, 1, 2, 3, 4, 5, 6])) ∧
    ¬ List.Pairwise (· ≠ ·)
      (((Shared.start standingGenerator).run
        (List.range 1000 ++ List.range 1000)).results.map Prod.snd) := by
  have hr := run_reads_then_encodes standingGenerator 1000
  rw [standing_encodeV1] at hr
  refine ⟨interleaving_reads_then_encodes 1000, hr, ?_⟩
  rw [hr, List.map_map]
  intro hp
  have h01 : List.Sublist [0, 1] (List.range 1000) := by
    have : List.Sublist (List.range 2) (List.range 1000) :=
      (List.range_sublist).2 (by decide)
    exact this
  have h2 := (hp.sublist (h01.map _))
  simp at h2

end uuid
